import Mathlib

/-!
# newsbeuter `rss.cpp`: a shallow embedding and its verified properties

`std::string` is embedded as a list of characters, member functions as functions on the
receiver's fields, loops with a mutable index as step functions driven by a fuel counter
(`none` = the fuel ran out), and memory shared through pointers as an explicit `world`.
-/

namespace Rss

/-- A `std::string`: the sequence of its characters. -/
abbrev Str := List Char

/-! ## `rss_item::sort_flags` (rss.cpp 601-619) -/

/-- The `isalpha` of `<cctype>` in the "C" locale: the ASCII letters. -/
def isalpha (c : Char) : Bool := c.isAlpha

/-- The value of a `char` as `operator<` compares it. The type `char` is signed on the
platform of the code (x86 Linux): the bytes 0x80 ... 0xFF have the values -128 ... -1 and so
stand before the 7-bit characters. A `std::string` holds bytes; a character beyond a byte
stands for no `char` and keeps its code here. -/
def char_value (c : Char) : Int :=
  if 128 ≤ c.toNat ∧ c.toNat < 256 then (c.toNat : Int) - 256 else (c.toNat : Int)

/-- Embedding of `std::sort(flags_.begin(), flags_.end())`: the characters in ascending order
of their `char` value. Equal characters are indistinguishable, so every sorting algorithm
gives this list. -/
def std_sort (s : Str) : Str := s.insertionSort (fun a b => char_value a ≤ char_value b)

/-- Embedding of `std::string::erase(iterator)`: removes the one character at position `it`. -/
def erase_at (s : Str) (it : Nat) : Str := s.eraseIdx it

/-- Embedding of `std::string::erase(pos, n)` for `pos ≤ size()`: removes the `n` characters
from position `pos` on, or all characters from `pos` on if fewer than `n` are left. -/
def erase_range (s : Str) (pos n : Nat) : Str := s.take pos ++ s.drop (pos + n)

/-- The first loop of `sort_flags` (lines 604-609), from iterator position `it`:
`for (it = begin; size() > 0 && it != end; ++it) if (!isalpha(*it)) { erase(it); it = begin; }`.
The `++it` of the loop header also runs after `it = flags_.begin()`. -/
def strip_loop : Nat → Str → Nat → Option Str
  | 0, _, _ => none
  | fuel + 1, flags_, it =>
    if 0 < flags_.length ∧ it ≠ flags_.length then
      match flags_[it]? with
      | none => none
      | some c =>
        if !isalpha c then strip_loop fuel (erase_at flags_ it) (0 + 1)
        else strip_loop fuel flags_ (it + 1)
    else some flags_

/-- The range of `unsigned int`: arithmetic on the loop counter `i` is modulo `2^32`. -/
def UINT_RANGE : Nat := 4294967296

/-- The second loop of `sort_flags` (lines 611-618), from counter value `i`:
`for (i = 0; i < size(); ++i) if (i < size()-1) if (flags_[i] == flags_[i+1])
{ flags_.erase(i+1, i+1); --i; }`. -/
def dedup_loop : Nat → Str → Nat → Option Str
  | 0, _, _ => none
  | fuel + 1, flags_, i =>
    if i < flags_.length then
      if i < flags_.length - 1 then
        match flags_[i]?, flags_[(i + 1) % UINT_RANGE]? with
        | some a, some b =>
          if a = b then
            dedup_loop fuel (erase_range flags_ ((i + 1) % UINT_RANGE) ((i + 1) % UINT_RANGE))
              (((i + UINT_RANGE - 1) % UINT_RANGE + 1) % UINT_RANGE)
          else dedup_loop fuel flags_ ((i + 1) % UINT_RANGE)
        | _, _ => none
      else dedup_loop fuel flags_ ((i + 1) % UINT_RANGE)
    else some flags_

/-- Embedding of `rss_item::sort_flags` on the `flags_` member: sort, strip, deduplicate. The
fuel given to each loop is an upper bound of the number of its iterations. -/
def sort_flags (flags_ : Str) : Option Str :=
  let sorted := std_sort flags_
  (strip_loop ((sorted.length + 1) * (sorted.length + 1)) sorted 0).bind
    (fun stripped => dedup_loop (2 * stripped.length + 2) stripped 0)

/-! ## The data model -/

/-- Modelled from the spec: the class `rss_item` (rss.h is not among the sources), with the
members that rss.cpp reads and writes. `ch` tells whether the pointer to the durable store is
non-null; `feedptr` is the non-owning back-reference, an index into the feed registry. -/
structure rss_item where
  title_ : Str
  link_ : Str
  author_ : Str
  description_ : Str
  pubDate_ : Int
  guid_ : Str
  feedurl_ : Str
  unread_ : Bool
  ch : Bool
  enclosure_url_ : Str
  enclosure_type_ : Str
  flags_ : Str
  deleted_ : Bool
  feedptr : Option Nat
  deriving DecidableEq, Repr

/-- Modelled from the spec: the constructor `rss_item(cache * c)` (rss.h is not among the
sources): empty texts, unread, not deleted, no owning feed. -/
def rss_item.new (c : Bool) : rss_item :=
  { title_ := [], link_ := [], author_ := [], description_ := [], pubDate_ := 0, guid_ := [],
    feedurl_ := [], unread_ := true, ch := c, enclosure_url_ := [], enclosure_type_ := [],
    flags_ := [], deleted_ := false, feedptr := none }

/-- Modelled from the spec: the class `rss_feed` (rss.h is not among the sources), with the
members that rss.cpp reads and writes. -/
structure rss_feed where
  title_ : Str
  description_ : Str
  link_ : Str
  pubDate_ : Int
  rssurl_ : Str
  items_ : List rss_item
  query : Str
  tags_ : List Str
  empty : Bool
  is_rtl_ : Bool
  ch : Bool
  deriving DecidableEq, Repr

/-- Modelled from the spec: the constructor `rss_feed(cache * c)` (rss.h is not among the
sources): no items, flagged empty. -/
def rss_feed.new (c : Bool) : rss_feed :=
  { title_ := [], description_ := [], link_ := [], pubDate_ := 0, rssurl_ := [], items_ := [],
    query := [], tags_ := [], empty := true, is_rtl_ := false, ch := c }

/-- The broken-down time `struct tm`, with the fields `parse_date` fills. -/
structure tm where
  tm_sec : Int
  tm_min : Int
  tm_hour : Int
  tm_mday : Int
  tm_mon : Int
  tm_year : Int
  deriving DecidableEq, Repr

/-- The status `mrss_error_t` of libmrss. -/
abbrev mrss_error_t := Nat

def MRSS_OK : mrss_error_t := 0
def MRSS_ERR_POSIX : mrss_error_t := 1
def MRSS_ERR_PARSER : mrss_error_t := 2
def MRSS_ERR_DOWNLOAD : mrss_error_t := 3
def MRSS_ERR_VERSION : mrss_error_t := 4
def MRSS_ERR_DATA : mrss_error_t := 5

/-- The format discriminator `mrss_version_t` of libmrss. -/
inductive mrss_version_t
  | MRSS_VERSION_0_91
  | MRSS_VERSION_0_92
  | MRSS_VERSION_1_0
  | MRSS_VERSION_2_0
  | MRSS_VERSION_ATOM_0_3
  | MRSS_VERSION_ATOM_1_0
  deriving DecidableEq, Repr

/-- A namespaced extension field `mrss_tag_t` of libmrss; `none` is a null pointer. -/
structure mrss_tag_t where
  name : Str
  value : Option Str
  ns : Option Str
  deriving DecidableEq, Repr

/-- An item `mrss_item_t` of a parsed document; `none` is a null pointer. -/
structure mrss_item_t where
  title : Option Str
  title_type : Option Str
  link : Option Str
  description : Option Str
  author : Option Str
  guid : Option Str
  pubDate : Option Str
  enclosure_url : Option Str
  enclosure_type : Option Str
  other_tags : List mrss_tag_t
  deriving DecidableEq, Repr

/-- A parsed document `mrss_t`; `item` is the linked list of its items in document order. -/
structure mrss_t where
  encoding : Option Str
  title : Option Str
  title_type : Option Str
  description : Option Str
  link : Option Str
  language : Option Str
  pubDate : Option Str
  managingeditor : Option Str
  version : mrss_version_t
  item : List mrss_item_t
  deriving DecidableEq, Repr

/-- Embedding of `mrss_search_tag(item, name, ns, &tag)` of libmrss on an item: the status
and the first extension field of that name and namespace, if any. -/
def mrss_search_tag (item : mrss_item_t) (name ns : Str) : mrss_error_t × Option mrss_tag_t :=
  (MRSS_OK, item.other_tags.find? (fun t => decide (t.name = name) && decide (t.ns = some ns)))

/-- Modelled from the spec: the external collaborators of the pipeline (transport, process
execution, format parser, renderer, predicate evaluator, encoding conversion, C library),
none of which is in rss.cpp. Each field is what a call returns. -/
structure collab where
  /-- Result of `utils::convert_text(text, tocode, fromcode)`. -/
  convert_text : Str → Str → Str → Str
  /-- Result of `nl_langinfo(CODESET)`. -/
  codeset : Str
  /-- Result of `utils::absolute_url(base, link)`. -/
  absolute_url : Str → Str → Str
  /-- Result of `htmlrenderer::render(source, lines, links, url)`: the rendered lines. -/
  render : Str → Str → List Str
  /-- Result of `mktime`. -/
  mktime : tm → Int
  /-- Result of `strftime(text, size, "%a, %d %b %Y %T", gmtime(&t))`. -/
  strftime_gmtime : Int → Str
  /-- Result of `::time(NULL)` at the moment the entry of that position is processed (0 is
  the feed itself). -/
  time : Nat → Int
  /-- The content of the uninitialised local `int year` of `parse_date`. -/
  year_garbage : Int
  /-- Result of `mrss_parse_url_with_options_and_error`: status and document. -/
  mrss_parse_url : Str → mrss_error_t × Option mrss_t
  /-- Result of `mrss_parse_buffer`: status and document. -/
  mrss_parse_buffer : Str → mrss_error_t × Option mrss_t
  /-- Result of `mrss_strerror(err)`. -/
  mrss_strerror : mrss_error_t → Str
  /-- Result of `mrss_get_last_modified_with_options`: status and the timestamp it stores,
  if it stores one. -/
  mrss_get_last_modified : Str → mrss_error_t × Option Int
  /-- Result of `utils::get_command_output(cmd)`. -/
  get_command_output : Str → Str
  /-- Result of `utils::retrieve_url(url, useragent)`. -/
  retrieve_url : Str → Str
  /-- Result of `utils::run_program(argv, input)` for `argv = {filter, NULL}`. -/
  run_program : Str → Str → Str
  /-- Result of `utils::extract_filter(uri, filter, url)`: the filter and the url. -/
  extract_filter : Str → Str × Str
  /-- Result of `utils::tokenize_quoted(str, delimiters)`. -/
  tokenize_quoted : Str → Str → List Str
  /-- Result of `matcher::parse(expr)`: whether the expression is well-formed. -/
  matcher_parse : Str → Bool
  /-- Result of `matcher(expr).matches(item)`: the evaluator sees its argument only through
  `has_attribute` and `get_attribute`. -/
  matcher_matches : Str → (Str → Bool) → (Str → Str) → Bool

/-- Modelled from the spec: `utils::tokenize(str, delimiters)` (utils.cpp is not among the
sources): the maximal runs of non-delimiter characters, in order. -/
def tokenize (str delimiters : Str) : List Str :=
  (str.splitOnP (fun c => decide (c ∈ delimiters))).filter (fun t => !t.isEmpty)

/-- Modelled from the spec: `utils::to_s(n)` (utils.cpp is not among the sources): the decimal
numeral. -/
def to_s (n : Nat) : Str := Nat.toDigits 10 n

/-- Modelled from the spec: `utils::replace_all(str, from, to)` (utils.cpp is not among the
sources) for one-character `from` and `to`. -/
def replace_all (str : Str) (old new : Char) : Str :=
  str.map (fun c => if c = old then new else c)

/-- What `const char * c_str()` shows to a C string function: the characters before the
first NUL. -/
def c_str (s : Str) : Str := s.takeWhile (fun c => c != Char.ofNat 0)

/-- The `tolower` of `<cctype>` in the "C" locale. -/
def tolower (c : Char) : Char := c.toLower

/-- Embedding of `strcmp` on two C strings: negative, zero or positive as the first is less
than, equal to or greater than the second in the order of the character codes. -/
def strcmp : Str → Str → Int
  | [], [] => 0
  | [], _ :: _ => -1
  | _ :: _, [] => 1
  | a :: s, b :: t => if a = b then strcmp s t else (a.toNat : Int) - (b.toNat : Int)

/-- Embedding of `strcasecmp` on two C strings: `strcmp` on the lower-cased characters. -/
def strcasecmp (s t : Str) : Int := strcmp (s.map tolower) (t.map tolower)

/-- Embedding of `std::string::substr(pos, n)` for `pos ≤ size()`. -/
def substr (s : Str) (pos n : Nat) : Str := (s.drop pos).take n

/-! ## The durable store and the shared memory -/

/-- A call that rss.cpp makes on the durable store, with its arguments. -/
inductive cache_call
  | get_lastmodified (uri : Str)
  | set_lastmodified (uri : Str) (lastmod : Int)
  | update_rssitem_unread_and_enqueued (item : rss_item) (feedurl : Str)
  | update_rssitem_flags (item : rss_item)
  | remove_old_deleted_items (rssurl : Str) (guids : List Str)
  deriving DecidableEq, Repr

/-- The error `dbexception` that a failed write of the durable store raises. -/
structure dbexception where
  /-- The number of the store call that failed. -/
  at_call : Nat
  deriving DecidableEq, Repr

/-- Modelled from the spec: the durable store `cache` (cache.cpp is not among the sources):
the persisted last-modified timestamps (newest entry first), the calls received so far
(oldest first) and, for each call number, whether the database fails at that call. -/
structure cache where
  lastmodified : List (Str × Int)
  calls : List cache_call
  db_fails : Nat → Bool

/-- Modelled from the spec: `cache::get_lastmodified(uri)`: the persisted timestamp, 0 when
there is none. -/
def cache.get_lastmodified (ch : cache) (uri : Str) : Int × cache :=
  ((ch.lastmodified.lookup uri).getD 0,
    { ch with calls := ch.calls ++ [cache_call.get_lastmodified uri] })

/-- Modelled from the spec: `cache::set_lastmodified(uri, lastmod)`: persists the
timestamp. -/
def cache.set_lastmodified (ch : cache) (uri : Str) (lastmod : Int) : cache :=
  { ch with lastmodified := (uri, lastmod) :: ch.lastmodified,
            calls := ch.calls ++ [cache_call.set_lastmodified uri lastmod] }

/-- Modelled from the spec: `cache::update_rssitem_unread_and_enqueued(item, feedurl)`: one
write, which raises a `dbexception` when the database fails. -/
def cache.update_rssitem_unread_and_enqueued (ch : cache) (item : rss_item) (feedurl : Str) :
    Option dbexception × cache :=
  (if ch.db_fails ch.calls.length then some { at_call := ch.calls.length } else none,
    { ch with calls := ch.calls ++ [cache_call.update_rssitem_unread_and_enqueued item feedurl] })

/-- Modelled from the spec: `cache::update_rssitem_flags(item)`. -/
def cache.update_rssitem_flags (ch : cache) (item : rss_item) : cache :=
  { ch with calls := ch.calls ++ [cache_call.update_rssitem_flags item] }

/-- Modelled from the spec: `cache::remove_old_deleted_items(rssurl, guids)`. -/
def cache.remove_old_deleted_items (ch : cache) (rssurl : Str) (guids : List Str) : cache :=
  { ch with calls := ch.calls ++ [cache_call.remove_old_deleted_items rssurl guids] }

/-- The memory that item and feed objects share: the registry of feeds that a `feedptr`
indexes, the `rss_item` objects held outside the registry (copies handed to views), the
`static rss_item dummy_item` of `get_item_by_guid`, and the durable store. -/
structure world where
  feeds : List rss_feed
  objs : List rss_item
  dummy_item : rss_item
  ch : cache

/-- An lvalue of type `rss_item`: where the object lives. -/
inductive item_ref
  | obj (i : Nat)
  | member (f k : Nat)
  | dummy
  deriving DecidableEq, Repr

/-- Reads the object behind a reference (`none`: the reference denotes no object). -/
def world.item_at (w : world) : item_ref → Option rss_item
  | item_ref.obj i => w.objs[i]?
  | item_ref.member f k => (w.feeds[f]?).bind (fun fd => fd.items_[k]?)
  | item_ref.dummy => some w.dummy_item

/-- Writes the object behind a reference. -/
def world.put_item (w : world) (r : item_ref) (x : rss_item) : world :=
  match r with
  | item_ref.obj i => { w with objs := w.objs.set i x }
  | item_ref.member f k =>
    { w with feeds := w.feeds.modify (fun fd => { fd with items_ := fd.items_.set k x }) f }
  | item_ref.dummy => { w with dummy_item := x }

/-! ## Accessors (rss.cpp 403-416, 464-543) -/

/-- Embedding of `rss_item::title()` (lines 499-506). -/
def rss_item.title (c : collab) (x : rss_item) : Str :=
  if x.title_.length > 0 then c.convert_text x.title_ c.codeset "utf-8".toList else []

/-- Embedding of `rss_item::author()` (lines 508-510). -/
def rss_item.author (c : collab) (x : rss_item) : Str :=
  c.convert_text x.author_ c.codeset "utf-8".toList

/-- Embedding of `rss_item::description()` (lines 512-514). -/
def rss_item.description (c : collab) (x : rss_item) : Str :=
  c.convert_text x.description_ c.codeset "utf-8".toList

/-- Embedding of `rss_item::pubDate()` (lines 403-407). -/
def rss_item.pubDate (c : collab) (x : rss_item) : Str := c.strftime_gmtime x.pubDate_

/-- Modelled from the spec: the inline accessor `rss_item::link()` of rss.h. -/
def rss_item.link (x : rss_item) : Str := x.link_

/-- Modelled from the spec: the inline accessor `rss_item::guid()` of rss.h. -/
def rss_item.guid (x : rss_item) : Str := x.guid_

/-- Modelled from the spec: the inline accessor `rss_item::flags()` of rss.h. -/
def rss_item.flags (x : rss_item) : Str := x.flags_

/-- Modelled from the spec: the inline accessor `rss_item::feedurl()` of rss.h. -/
def rss_item.feedurl (x : rss_item) : Str := x.feedurl_

/-- Modelled from the spec: the inline accessor `rss_item::unread()` of rss.h. -/
def rss_item.unread (x : rss_item) : Bool := x.unread_

/-- Modelled from the spec: the inline accessor `rss_item::deleted()` of rss.h. -/
def rss_item.deleted (x : rss_item) : Bool := x.deleted_

/-- Modelled from the spec: the inline accessor `rss_item::enclosure_url()` of rss.h. -/
def rss_item.enclosure_url (x : rss_item) : Str := x.enclosure_url_

/-- Modelled from the spec: the inline accessor `rss_item::enclosure_type()` of rss.h. -/
def rss_item.enclosure_type (x : rss_item) : Str := x.enclosure_type_

/-- Embedding of `rss_feed::unread_item_count()` (lines 409-416); `count` is an `unsigned int`. -/
def rss_feed.unread_item_count (fd : rss_feed) : Nat :=
  fd.items_.foldl (fun count it => if it.unread then (count + 1) % UINT_RANGE else count) 0

/-- Embedding of `rss_feed::matches_tag(tag)` (lines 464-470). -/
def rss_feed.matches_tag (fd : rss_feed) (tag : Str) : Bool :=
  fd.tags_.any (fun it => decide (tag = it))

/-- Embedding of `rss_feed::get_tags()` (lines 472-481). -/
def rss_feed.get_tags (fd : rss_feed) : Str :=
  fd.tags_.foldl (fun tags it => if substr it 0 1 = "~".toList then tags ++ it ++ " ".toList
    else tags) []

/-- Embedding of `rss_feed::set_tags(tags)` (lines 483-489). -/
def rss_feed.set_tags (fd : rss_feed) (tags : List Str) : rss_feed :=
  { fd with tags_ := tags.foldl (fun acc it => acc ++ [it]) [] }

/-- The loop of `rss_feed::title()` (lines 519-525): the text after the `~` of the first tag
that starts with `~`. -/
def title_loop : List Str → Option Str
  | [] => none
  | it :: rest =>
    if substr it 0 1 = "~".toList then some (substr it 1 (it.length - 1)) else title_loop rest

/-- Embedding of `rss_feed::title()` (lines 516-527). -/
def rss_feed.title (c : collab) (fd : rss_feed) : Str :=
  match title_loop fd.tags_ with
  | some alt_title => alt_title
  | none => c.convert_text fd.title_ c.codeset "utf-8".toList

/-- Embedding of `rss_feed::description()` (lines 529-531). -/
def rss_feed.description (c : collab) (fd : rss_feed) : Str :=
  c.convert_text fd.description_ c.codeset "utf-8".toList

/-- Modelled from the spec: the inline accessor `rss_feed::link()` of rss.h. -/
def rss_feed.link (fd : rss_feed) : Str := fd.link_

/-- Modelled from the spec: the inline accessor `rss_feed::rssurl()` of rss.h. -/
def rss_feed.rssurl (fd : rss_feed) : Str := fd.rssurl_

/-- Modelled from the spec: `rss_feed::pubDate()` of rss.h, the publish timestamp as text. -/
def rss_feed.pubDate (c : collab) (fd : rss_feed) : Str := c.strftime_gmtime fd.pubDate_

/-- Embedding of `rss_feed::get_item_by_guid(guid)` (lines 533-543): a reference to the first
item of feed `f` with that guid, or to the static dummy item. -/
def get_item_by_guid (w : world) (f : Nat) (guid : Str) : item_ref :=
  match w.feeds[f]? with
  | none => item_ref.dummy
  | some fd =>
    match fd.items_.findIdx? (fun it => decide (it.guid = guid)) with
    | some k => item_ref.member f k
    | none => item_ref.dummy

/-! ## Attribute introspection (rss.cpp 545-593, 621-653) -/

/-- Embedding of `rss_feed::has_attribute(attribname)` (lines 621-632). -/
def rss_feed.has_attribute (attribname : Str) : Bool :=
  if attribname = "feedtitle".toList ∨ attribname = "description".toList ∨
      attribname = "feedlink".toList ∨ attribname = "feeddate".toList ∨
      attribname = "rssurl".toList ∨ attribname = "unread_count".toList ∨
      attribname = "total_count".toList ∨ attribname = "tags".toList then true
  else false

/-- Embedding of `rss_feed::get_attribute(attribname)` (lines 634-653). -/
def rss_feed.get_attribute (c : collab) (fd : rss_feed) (attribname : Str) : Str :=
  if attribname = "feedtitle".toList then fd.title c
  else if attribname = "description".toList then fd.description c
  else if attribname = "feedlink".toList then fd.title c
  else if attribname = "feeddate".toList then fd.pubDate c
  else if attribname = "rssurl".toList then fd.rssurl
  else if attribname = "unread_count".toList then to_s fd.unread_item_count
  else if attribname = "total_count".toList then to_s fd.items_.length
  else if attribname = "tags".toList then fd.get_tags
  else []

/-- Embedding of `rss_item::has_attribute(attribname)` (lines 545-564); `feeds` is the registry that
`feedptr` points into (a `feedptr` outside the registry is read as a null pointer). -/
def rss_item.has_attribute (feeds : List rss_feed) (x : rss_item) (attribname : Str) : Bool :=
  if attribname = "title".toList ∨ attribname = "link".toList ∨
      attribname = "author".toList ∨ attribname = "content".toList ∨
      attribname = "date".toList ∨ attribname = "guid".toList ∨
      attribname = "unread".toList ∨ attribname = "enclosure_url".toList ∨
      attribname = "enclosure_type".toList ∨ attribname = "flags".toList then true
  else
    match x.feedptr.bind (fun f => feeds[f]?) with
    | some _ => rss_feed.has_attribute attribname
    | none => false

/-- Embedding of `rss_item::get_attribute(attribname)` (lines 566-593). -/
def rss_item.get_attribute (c : collab) (feeds : List rss_feed) (x : rss_item)
    (attribname : Str) : Str :=
  if attribname = "title".toList then x.title c
  else if attribname = "link".toList then x.link
  else if attribname = "author".toList then x.author c
  else if attribname = "content".toList then x.description c
  else if attribname = "date".toList then x.pubDate c
  else if attribname = "guid".toList then x.guid
  else if attribname = "unread".toList then (if x.unread_ then "yes".toList else "no".toList)
  else if attribname = "enclosure_url".toList then x.enclosure_url
  else if attribname = "enclosure_type".toList then x.enclosure_type
  else if attribname = "flags".toList then x.flags
  else
    match x.feedptr.bind (fun f => feeds[f]?) with
    | some fd => fd.get_attribute c attribname
    | none => []

/-! ## The unread flag (rss.cpp 377-401) -/

/-- Embedding of `rss_item::set_unread_nowrite(u)` (lines 377-379) on the object behind `this`. -/
def set_unread_nowrite (w : world) (this : item_ref) (u : Bool) : world :=
  match w.item_at this with
  | some x => w.put_item this { x with unread_ := u }
  | none => w

/-- The statement `if (feedptr) feedptr->get_item_by_guid(guid_).set_unread_nowrite(unread_);`
of lines 383-384 and 391-392, run on the object behind `this` (a `feedptr` outside the
registry is read as a null pointer). -/
def notify_parent_feed (w : world) (this : item_ref) : world :=
  match w.item_at this with
  | none => w
  | some x =>
    match x.feedptr with
    | none => w
    | some f =>
      if f < w.feeds.length then set_unread_nowrite w (get_item_by_guid w f x.guid_) x.unread_
      else w

/-- Embedding of `rss_item::set_unread_nowrite_notify(u)` (lines 381-385). -/
def set_unread_nowrite_notify (w : world) (this : item_ref) (u : Bool) : world :=
  notify_parent_feed (set_unread_nowrite w this u) this

/-- Embedding of `rss_item::set_unread(u)` (lines 387-401) on the object behind `this`: the
memory after the call and the exception that leaves the call, if one does. -/
def set_unread (w : world) (this : item_ref) (u : Bool) : world × Option dbexception :=
  match w.item_at this with
  | none => (w, none)
  | some x =>
    if x.unread_ != u then
      let old_u := x.unread_
      let w1 := set_unread_nowrite w this u
      let w2 := notify_parent_feed w1 this
      match w2.item_at this with
      | none => (w2, none)
      | some x2 =>
        if x2.ch then
          let r := w2.ch.update_rssitem_unread_and_enqueued x2 x2.feedurl_
          let w3 := { w2 with ch := r.2 }
          match r.1 with
          | some e => (set_unread_nowrite w3 this old_u, some e)
          | none => (w3, none)
        else (w2, none)
    else (w, none)

/-- Embedding of `rss_item::sort_flags()` (lines 601-619) as a member function: replaces
`flags_`. -/
def rss_item.sort_flags (x : rss_item) : Option rss_item :=
  (Rss.sort_flags x.flags_).map (fun fl => { x with flags_ := fl })

/-! ## The ignore engine (rss.cpp 690-717) -/

/-- Modelled from the spec: the class `matcher` (matcher.cpp is not among the sources), a
compiled predicate, kept as the expression it was compiled from. -/
structure matcher where
  exp : Str
  deriving DecidableEq, Repr

/-- Modelled from the spec: the class `rss_ignores` (rss.h is not among the sources): the
rules `ignores`, each a feed url or `*` with a predicate, and the two url lists. -/
structure rss_ignores where
  ignores : List (Str × matcher)
  ignores_lastmodified : List Str
  resetflag : List Str
  deriving DecidableEq, Repr

/-- The loop of `rss_ignores::matches(item)` (lines 691-699) over the rules not yet seen. -/
def matches_loop (c : collab) (feeds : List rss_feed) (item : rss_item) :
    List (Str × matcher) → Bool
  | [] => false
  | it :: rest =>
    if it.1 = "*".toList ∨ item.feedurl = it.1 then
      if c.matcher_matches it.2.exp (item.has_attribute feeds) (item.get_attribute c feeds) then
        true
      else matches_loop c feeds item rest
    else matches_loop c feeds item rest

/-- Embedding of `rss_ignores::matches(item)` (lines 690-701). -/
def rss_ignores.matches_item (c : collab) (feeds : List rss_feed) (ig : rss_ignores)
    (item : rss_item) : Bool :=
  matches_loop c feeds item ig.ignores

/-- Embedding of `rss_ignores::matches_lastmodified(url)` (lines 703-709). -/
def rss_ignores.matches_lastmodified (ig : rss_ignores) (url : Str) : Bool :=
  ig.ignores_lastmodified.any (fun it => decide (url = it))

/-- Embedding of `rss_ignores::matches_resetunread(url)` (lines 711-717). -/
def rss_ignores.matches_resetunread (ig : rss_ignores) (url : Str) : Bool :=
  ig.resetflag.any (fun it => decide (url = it))

/-! ## The staleness gate (rss.cpp 310-347) -/

/-- Embedding of `rss_parser::check_and_update_lastmodified()` (lines 310-347): the answer
and the durable store after the call. `ign` is `none` for a null pointer. -/
def check_and_update_lastmodified (c : collab) (my_uri : Str) (ign : Option rss_ignores)
    (ch : cache) : Bool × cache :=
  if substr my_uri 0 5 ≠ "http:".toList ∧ substr my_uri 0 6 ≠ "https:".toList then (true, ch)
  else if (match ign with
      | some ig => ig.matches_lastmodified my_uri
      | none => false) then (true, ch)
  else
    let old := ch.get_lastmodified my_uri
    let oldlm : Int := old.1
    let probe := c.mrss_get_last_modified my_uri
    let newlm : Int := probe.2.getD 0
    let err := probe.1
    if err ≠ MRSS_OK then (false, old.2)
    else if newlm = 0 then (true, old.2)
    else if newlm > oldlm then (true, old.2.set_lastmodified my_uri newlm)
    else (false, old.2)

/-! ## The sort engine (rss.cpp 768-829) -/

/-- Embedding of `sort_item_by_title::operator()` (lines 768-772). -/
def sort_item_by_title (c : collab) (a b : rss_item) : Bool :=
  decide (strcasecmp (c_str (a.title c)) (c_str (b.title c)) < 0)

/-- Embedding of `sort_item_by_flags::operator()` (lines 774-778). -/
def sort_item_by_flags (a b : rss_item) : Bool :=
  decide (strcmp (c_str a.flags) (c_str b.flags) < 0)

/-- Embedding of `sort_item_by_author::operator()` (lines 780-784). -/
def sort_item_by_author (c : collab) (a b : rss_item) : Bool :=
  decide (strcmp (c_str (a.author c)) (c_str (b.author c)) < 0)

/-- Embedding of `sort_item_by_link::operator()` (lines 786-790). -/
def sort_item_by_link (a b : rss_item) : Bool :=
  decide (strcmp (c_str a.link) (c_str b.link) < 0)

/-- Embedding of `sort_item_by_guid::operator()` (lines 792-796). -/
def sort_item_by_guid (a b : rss_item) : Bool :=
  decide (strcmp (c_str a.guid) (c_str b.guid) < 0)

/-- Embedding of `std::stable_sort(begin, end, comp)`: the sorted arrangement in which elements that `comp`
does not order keep their places relative to each other; insertion of each element in front
of the first one that is not less than it, from the back, computes it. -/
def stable_sort (comp : rss_item → rss_item → Bool) (items : List rss_item) : List rss_item :=
  items.insertionSort (fun a b => comp b a = false)

/-- Embedding of `rss_feed::sort(method)` (lines 798-829). -/
def rss_feed.sort (c : collab) (fd : rss_feed) (method : Str) : rss_feed :=
  let methods := tokenize method "-".toList
  let reverse : Bool :=
    if methods.length > 0 ∧ methods[0]? = some "date".toList then
      (if methods.length > 1 ∧ methods[1]? = some "asc".toList then true else false)
    else
      (if methods.length > 1 ∧ methods[1]? = some "desc".toList then true else false)
  let items1 : List rss_item :=
    if methods.length > 0 ∧ methods[0]? ≠ some "date".toList then
      if methods[0]? = some "title".toList then stable_sort (sort_item_by_title c) fd.items_
      else if methods[0]? = some "flags".toList then stable_sort sort_item_by_flags fd.items_
      else if methods[0]? = some "author".toList then stable_sort (sort_item_by_author c) fd.items_
      else if methods[0]? = some "link".toList then stable_sort sort_item_by_link fd.items_
      else if methods[0]? = some "guid".toList then stable_sort sort_item_by_guid fd.items_
      else fd.items_
    else fd.items_
  if reverse then { fd with items_ := items1.reverse } else { fd with items_ := items1 }

/-! ## The date parser (rss.cpp 418-462, 883-890) -/

/-- A `std::istringstream`: the characters not yet read, and whether the stream is `good()`
(neither `eofbit` nor `failbit` is set). -/
structure istringstream where
  rest : Str
  good : Bool
  deriving DecidableEq, Repr

/-- The `isspace` of `<cctype>` in the "C" locale. -/
def isspace (c : Char) : Bool :=
  c = ' ' || c = '\t' || c = '\n' || c = Char.ofNat 11 || c = Char.ofNat 12 || c = '\r'

/-- The formatted input `is >> str` for a `std::string`: skips white space and reads up to the
next white space; a stream that is not good, or has nothing but white space left, leaves
`str` as it is. Reading up to the end of the text sets `eofbit`. -/
def read_string (is : istringstream) (str : Str) : Str × istringstream :=
  if !is.good then (str, is)
  else
    let r := is.rest.dropWhile isspace
    if r.isEmpty then (str, { rest := [], good := false })
    else
      let r2 := r.dropWhile (fun ch => !isspace ch)
      (r.takeWhile (fun ch => !isspace ch), { rest := r2, good := !r2.isEmpty })

def INT_MAX : Int := 2147483647
def INT_MIN : Int := -2147483648

/-- The value of a run of decimal digits. -/
def digits_value (ds : Str) : Nat := ds.foldl (fun acc d => acc * 10 + (d.toNat - 48)) 0

/-- The formatted input `is >> n` for an `int`: skips white space, then reads an optional sign
and decimal digits. A stream that is not good, or has nothing but white space left, leaves
`n` as it is; no digit stores 0 and sets `failbit`; a value out of range stores the nearest
bound and sets `failbit`. -/
def read_int (is : istringstream) (n : Int) : Int × istringstream :=
  if !is.good then (n, is)
  else
    let r := is.rest.dropWhile isspace
    if r.isEmpty then (n, { rest := [], good := false })
    else
      let neg : Bool := r.head? = some '-'
      let r1 := if r.head? = some '-' ∨ r.head? = some '+' then r.drop 1 else r
      let ds := r1.takeWhile Char.isDigit
      let r2 := r1.dropWhile Char.isDigit
      if ds.isEmpty then (0, { rest := r2, good := false })
      else
        let v : Int := if neg then -(digits_value ds : Int) else (digits_value ds : Int)
        if v > INT_MAX then (INT_MAX, { rest := r2, good := false })
        else if v < INT_MIN then (INT_MIN, { rest := r2, good := false })
        else (v, { rest := r2, good := !r2.isEmpty })

/-- The table `monthtable` of `monthname_to_number`. -/
def monthtable : List Str :=
  ["Jan".toList, "Feb".toList, "Mar".toList, "Apr".toList, "May".toList, "Jun".toList,
   "Jul".toList, "Aug".toList, "Sep".toList, "Oct".toList, "Nov".toList, "Dec".toList]

/-- The loop of `monthname_to_number` from table position `i` on. -/
def monthname_loop (monthstr : Str) : List Str → Nat → Nat
  | [], _ => 0
  | m :: rest, i => if monthstr = m then i else monthname_loop monthstr rest (i + 1)

/-- Embedding of `rss_parser::monthname_to_number(monthstr)` (lines 883-890). -/
def monthname_to_number (monthstr : Str) : Nat := monthname_loop monthstr monthtable 0

/-- The broken-down time that `rss_parser::parse_date(datestr)` (lines 418-458) hands to
`mktime`; `none` when `tmp[tmp.length()-1]` is evaluated on an empty `tmp`. -/
def parse_date_tm (c : collab) (datestr : Str) : Option tm :=
  let is0 : istringstream := { rest := datestr, good := true }
  let r1 := read_string is0 []
  if r1.1.isEmpty then none
  else
    let r2 := if r1.1.getLast? = some ',' then read_string r1.2 r1.1 else r1
    let tmp := r2.1
    let tm_mday := (read_int { rest := tmp, good := true } 0).1
    let r3 := read_string r2.2 []
    let monthstr := r3.1
    let tm_mon := monthname_to_number monthstr
    let r4 := read_int r3.2 c.year_garbage
    let year : Int := if r4.1 < 100 then r4.1 + 2000 else r4.1
    let r5 := read_string r4.2 []
    let time := r5.1
    let tkns := tokenize time ":".toList
    let tm_hour : Int :=
      match tkns[0]? with
      | some t => (read_int { rest := t, good := true } 0).1
      | none => 0
    let tm_min : Int :=
      match tkns[0]?, tkns[1]? with
      | some _, some t => (read_int { rest := t, good := true } 0).1
      | _, _ => 0
    let tm_sec : Int :=
      match tkns[0]?, tkns[1]?, tkns[2]? with
      | some _, some _, some t => (read_int { rest := t, good := true } 0).1
      | _, _, _ => 0
    some { tm_sec := tm_sec, tm_min := tm_min, tm_hour := tm_hour, tm_mday := tm_mday,
           tm_mon := tm_mon, tm_year := year - 1900 }

/-- Embedding of `rss_parser::parse_date(datestr)` (lines 418-462). -/
def parse_date (c : collab) (datestr : Str) : Option Int :=
  (parse_date_tm c datestr).map c.mktime

/-! ## The ingestion pipeline (rss.cpp 30-308, 831-837, 856-881) -/

/-- Modelled from the spec: the read-only configuration `configcontainer`
(configcontainer.cpp is not among the sources), with the one value the item construction
reads. -/
structure configcontainer where
  always_display_description : Bool
  deriving DecidableEq, Repr

/-- An effect of `rss_parser::parse` outside the process. -/
inductive io_event
  | mrss_parse_url (uri : Str)
  | get_command_output (cmd : Str)
  | retrieve_url (url : Str)
  | run_program (filter input : Str)
  deriving DecidableEq, Repr

/-- What a call of `rss_parser::parse` leaves: the feed it returns or the text it throws, the
durable store, and the outside effects in the order they happened. -/
structure parse_result where
  ret : Except Str rss_feed
  ch : cache
  io : List io_event

/-- Embedding of `rss_feed::set_rssurl(u)` (lines 758-766); `none` when `tokens[1]` or `tokens[2]` does
not exist. -/
def rss_feed.set_rssurl (c : collab) (fd : rss_feed) (u : Str) : Option rss_feed :=
  if substr u 0 6 = "query:".toList then
    let tokens := c.tokenize_quoted u ":".toList
    match tokens[1]?, tokens[2]? with
    | some t1, some t2 => some { fd with rssurl_ := u, title_ := t1, query := t2 }
    | _, _ => none
  else some { fd with rssurl_ := u }

/-- Embedding of `rss_parser::replace_newline_characters(str)` (lines 856-859). -/
def replace_newline_characters (str : Str) : Str :=
  replace_all (replace_all str '\r' ' ') '\n' ' '

/-- Embedding of `rss_parser::render_xhtml_title(title, link)` (lines 873-881). -/
def render_xhtml_title (c : collab) (title link : Str) : Str :=
  match c.render title link with
  | line :: _ => line
  | [] => []

/-- Whether a title type marks rich markup: `title_type && (strcmp(title_type,"xhtml")==0 ||
strcmp(title_type,"html")==0)`. -/
def is_html_type (title_type : Option Str) : Bool :=
  decide (title_type = some "xhtml".toList ∨ title_type = some "html".toList)

/-- The table `rtl_langprefix` of lines 135-144. -/
def rtl_langprefixes : List Str :=
  ["ar".toList, "fa".toList, "ur".toList, "ps".toList, "syr".toList, "dv".toList,
   "he".toList, "yi".toList]

/-- The feed-level part of `rss_parser::parse` (lines 108-152): title, description, link,
publish timestamp and text direction of the feed. -/
def fill_feed (c : collab) (my_uri : Str) (mrss : mrss_t) (feed : rss_feed) :
    Option rss_feed :=
  let encoding := mrss.encoding.getD "utf-8".toList
  let feed1 : rss_feed :=
    match mrss.title with
    | some t =>
      if is_html_type mrss.title_type then
        { feed with title_ :=
            render_xhtml_title c (c.convert_text t "utf-8".toList encoding) feed.link }
      else { feed with title_ := c.convert_text t "utf-8".toList encoding }
    | none => feed
  let feed2 : rss_feed :=
    match mrss.description with
    | some d => { feed1 with description_ := c.convert_text d "utf-8".toList encoding }
    | none => feed1
  let feed3 : rss_feed :=
    match mrss.link with
    | some l => { feed2 with link_ := c.absolute_url my_uri l }
    | none => feed2
  let date : Option Int :=
    match mrss.pubDate with
    | some d => parse_date c d
    | none => some (c.time 0)
  match date with
  | none => none
  | some t =>
    let feed4 : rss_feed := { feed3 with pubDate_ := t }
    match mrss.language with
    | some lang =>
      if rtl_langprefixes.any (fun p => p.isPrefixOf lang) then
        some { feed4 with is_rtl_ := true }
      else some feed4
    | none => some feed4

/-- The title and link of an item (lines 162-174). -/
def item_title_link (c : collab) (my_uri encoding : Str) (feed : rss_feed)
    (item : mrss_item_t) (x : rss_item) : rss_item :=
  let x1 : rss_item :=
    match item.title with
    | some t =>
      if is_html_type item.title_type then
        { x with title_ :=
            render_xhtml_title c (c.convert_text t "utf-8".toList encoding) feed.link }
      else
        { x with title_ :=
            replace_newline_characters (c.convert_text t "utf-8".toList encoding) }
    | none => x
  match item.link with
  | some l => { x1 with link_ := c.absolute_url my_uri l }
  | none => x1

/-- The author of an item (lines 175-188). -/
def item_author (c : collab) (encoding : Str) (mrss : mrss_t) (item : mrss_item_t)
    (x : rss_item) : rss_item :=
  if item.author = none ∨ item.author = some [] then
    match mrss.managingeditor with
    | some ed => { x with author_ := c.convert_text ed "utf-8".toList encoding }
    | none =>
      let r := mrss_search_tag item "creator".toList "http://purl.org/dc/elements/1.1/".toList
      match decide (r.1 = MRSS_OK), r.2 with
      | true, some creator =>
        match creator.value with
        | some v => { x with author_ := c.convert_text v "utf-8".toList encoding }
        | none => x
      | _, _ => x
  else { x with author_ := c.convert_text (item.author.getD []) "utf-8".toList encoding }

/-- The search for Atom content of lines 216-217: the first of the two namespaces in which a
`content` field is found. -/
def search_atom_content (item : mrss_item_t) : Option mrss_tag_t :=
  let r1 := mrss_search_tag item "content".toList "http://www.w3.org/2005/Atom".toList
  if r1.1 = MRSS_OK ∧ r1.2.isSome then r1.2
  else
    let r2 := mrss_search_tag item "content".toList "http://purl.org/atom/ns#".toList
    if r2.1 = MRSS_OK ∧ r2.2.isSome then r2.2 else none

/-- The description of an item (lines 192-254): `content:encoded`, Atom content,
`itunes:summary`, the plain description. -/
def item_description (c : collab) (cfgcont : configcontainer) (encoding : Str)
    (mrss : mrss_t) (item : mrss_item_t) (x : rss_item) : rss_item :=
  let r := mrss_search_tag item "encoded".toList
    "http://purl.org/rss/1.0/modules/content/".toList
  let x1 : rss_item :=
    match decide (r.1 = MRSS_OK), r.2 with
    | true, some content =>
      match content.value with
      | some v => { x with description_ := c.convert_text v "utf-8".toList encoding }
      | none => x
    | _, _ => x
  let x2 : rss_item :=
    if mrss.version = mrss_version_t.MRSS_VERSION_ATOM_0_3 ∨
        mrss.version = mrss_version_t.MRSS_VERSION_ATOM_1_0 then
      match search_atom_content item with
      | some content =>
        match content.value with
        | some v => { x1 with description_ := c.convert_text v "utf-8".toList encoding }
        | none => x1
      | none => x1
    else x1
  let s := mrss_search_tag item "summary".toList
    "http://www.itunes.com/dtds/podcast-1.0.dtd".toList
  let x3 : rss_item :=
    if (x2.description c).length = 0 ∧ s.1 = MRSS_OK ∧ s.2.isSome then
      match s.2.bind (fun content => content.value) with
      | some v =>
        { x2 with description_ := "<ituneshack>".toList ++
            c.convert_text v "utf-8".toList encoding ++ "</ituneshack>".toList }
      | none => x2
    else x2
  if (x3.description c).length = 0 then
    match item.description with
    | some d => { x3 with description_ := c.convert_text d "utf-8".toList encoding }
    | none => x3
  else
    match cfgcont.always_display_description, item.description with
    | true, some d =>
      { x3 with description_ := x3.description c ++ "<hr>".toList ++
          c.convert_text d "utf-8".toList encoding }
    | _, _ => x3

/-- The guid of an item (lines 268-274). -/
def item_guid (item : mrss_item_t) (x : rss_item) : rss_item :=
  match item.guid, item.link, item.title with
  | some g, _, _ => { x with guid_ := g }
  | none, some l, _ => { x with guid_ := l }
  | none, none, some t => { x with guid_ := t }
  | none, none, none => x

/-- The enclosure of an item (lines 276-283). -/
def item_enclosure (item : mrss_item_t) (x : rss_item) : rss_item :=
  let x1 : rss_item :=
    match item.enclosure_url with
    | some u => { x with enclosure_url_ := u }
    | none => x
  match item.enclosure_type with
  | some t => { x1 with enclosure_type_ := t }
  | none => x1

/-- The body of the item loop of `rss_parser::parse` up to the ignore test (lines 161-288):
the item `x` built from the `k`-th entry `item` of the document. -/
def make_item (c : collab) (cfgcont : configcontainer) (my_uri : Str) (mrss : mrss_t)
    (feed : rss_feed) (k : Nat) (item : mrss_item_t) : Option rss_item :=
  let encoding := mrss.encoding.getD "utf-8".toList
  let x0 := rss_item.new true
  let x1 := item_title_link c my_uri encoding feed item x0
  let x2 := item_author c encoding mrss item x1
  let x3 : rss_item := { x2 with feedurl_ := feed.rssurl }
  let x4 := item_description c cfgcont encoding mrss item x3
  let date : Option Int :=
    match item.pubDate with
    | some d => parse_date c d
    | none => some (c.time k)
  match date with
  | none => none
  | some t =>
    let x5 : rss_item := { x4 with pubDate_ := t }
    some (item_enclosure item (item_guid item x5))

/-- The item loop of `rss_parser::parse` (lines 160-297) from the `k`-th entry on: every built
item is appended to the feed unless an ignore set is given and matches it. -/
def parse_items (c : collab) (cfgcont : configcontainer) (ign : Option rss_ignores)
    (my_uri : Str) (mrss : mrss_t) : Nat → List mrss_item_t → rss_feed → Option rss_feed
  | _, [], feed => some feed
  | k, item :: rest, feed =>
    match make_item c cfgcont my_uri mrss feed k item with
    | none => none
    | some x =>
      if (match ign with
          | none => true
          | some ig => !ig.matches_item c [] x) then
        parse_items c cfgcont ign my_uri mrss (k + 1) rest
          { feed with items_ := feed.items_ ++ [x] }
      else parse_items c cfgcont ign my_uri mrss (k + 1) rest feed

/-- Embedding of `rss_feed::remove_old_deleted_items()` (lines 831-837): the store after the call. -/
def rss_feed.remove_old_deleted_items (fd : rss_feed) (ch : cache) : cache :=
  ch.remove_old_deleted_items fd.rssurl_ (fd.items_.map (fun it => it.guid))

/-- The fetch of lines 46-78: whether parsing is skipped, the status, the document and the
outside effects; `none` for a source that has none of the four prefixes. -/
def dispatch (c : collab) (my_uri : Str) :
    Option (Bool × mrss_error_t × Option mrss_t × List io_event) :=
  if substr my_uri 0 5 = "http:".toList ∨ substr my_uri 0 6 = "https:".toList then
    let r := c.mrss_parse_url my_uri
    some (false, r.1, r.2, [io_event.mrss_parse_url my_uri])
  else if substr my_uri 0 5 = "exec:".toList then
    let file := substr my_uri 5 (my_uri.length - 5)
    let buf := c.get_command_output file
    let r := c.mrss_parse_buffer buf
    some (false, r.1, r.2, [io_event.get_command_output file])
  else if substr my_uri 0 7 = "filter:".toList then
    let fu := c.extract_filter my_uri
    let buf := c.retrieve_url fu.2
    let result := c.run_program fu.1 buf
    let r := c.mrss_parse_buffer result
    some (false, r.1, r.2, [io_event.retrieve_url fu.2, io_event.run_program fu.1 buf])
  else if substr my_uri 0 6 = "query:".toList then some (true, MRSS_OK, none, [])
  else none

/-- Embedding of `rss_parser::parse()` (lines 30-308) for the source `my_uri`, the store `ch`, the
configuration `cfgcont` and the ignore set `ign` (`none` for a null pointer). The result is
`none` where the C++ has no defined behaviour (a `query:` source with fewer than three
parts, an empty date text). -/
def parse (c : collab) (cfgcont : configcontainer) (ign : Option rss_ignores) (ch : cache)
    (my_uri : Str) : Option parse_result :=
  match (rss_feed.new true).set_rssurl c my_uri with
  | none => none
  | some feed =>
    match dispatch c my_uri with
    | none =>
      some { ret := Except.error ("Error: unsupported URL: ".toList ++ c_str my_uri),
             ch := ch, io := [] }
    | some (skip_parsing, err, mrss, io) =>
      if !skip_parsing then
        match mrss with
        | none => some { ret := Except.ok feed, ch := ch, io := io }
        | some doc =>
          if err > MRSS_OK ∧ err ≤ MRSS_ERR_DATA then
            some { ret := Except.error (c.mrss_strerror err), ch := ch, io := io }
          else
            match (fill_feed c my_uri doc feed).bind
                (fun fd => parse_items c cfgcont ign my_uri doc 1 doc.item fd) with
            | none => none
            | some fd =>
              some { ret := Except.ok { fd with empty := false },
                     ch := fd.remove_old_deleted_items ch, io := io }
      else some { ret := Except.ok { feed with empty := false }, ch := ch, io := io }

/-! ## The commands of the ignore engine (rss.cpp 655-682) -/

/-- Modelled from the spec: the status `action_handler_status` that a command handler returns
(configparser.h is not among the sources): accepted, `InvalidParams`, `TooFewParams`,
`UnknownCommand`. -/
inductive action_handler_status
  | AHS_OK
  | AHS_INVALID_PARAMS
  | AHS_TOO_FEW_PARAMS
  | AHS_INVALID_COMMAND
  deriving DecidableEq, Repr

/-- The loop `for (it = params.begin(); it != params.end(); ++it) list.push_back(*it);` of
lines 671-673 and 676-678. -/
def push_back_all (list : List Str) : List Str → List Str
  | [] => list
  | it :: rest => push_back_all (list ++ [it]) rest

/-- Embedding of `rss_ignores::handle_action(action, params)` (lines 655-682): the status and
the ignore set after the call. The pattern `ignore_rssurl :: ignore_expr :: _` is the test
`params.size() >= 2` with `params[0]` and `params[1]`. -/
def rss_ignores.handle_action (c : collab) (ig : rss_ignores) (action : Str)
    (params : List Str) : action_handler_status × rss_ignores :=
  if action = "ignore-article".toList then
    match params with
    | ignore_rssurl :: ignore_expr :: _ =>
      if c.matcher_parse ignore_expr then
        (action_handler_status.AHS_OK,
          { ig with ignores := ig.ignores ++ [(ignore_rssurl, { exp := ignore_expr })] })
      else (action_handler_status.AHS_INVALID_PARAMS, ig)
    | _ => (action_handler_status.AHS_TOO_FEW_PARAMS, ig)
  else if action = "always-download".toList then
    (action_handler_status.AHS_OK,
      { ig with ignores_lastmodified := push_back_all ig.ignores_lastmodified params })
  else if action = "reset-unread-on-update".toList then
    (action_handler_status.AHS_OK, { ig with resetflag := push_back_all ig.resetflag params })
  else (action_handler_status.AHS_INVALID_COMMAND, ig)

/-! ## The virtual query feed (rss.cpp 719-756, 852-854) -/

/-- Embedding of `rss_item::set_feedptr(ptr)` (lines 852-854). -/
def rss_item.set_feedptr (x : rss_item) (ptr : Option Nat) : rss_item :=
  { x with feedptr := ptr }

/-- Modelled from the spec: `rss_item::operator<` (rss.h is not among the sources), the order
of the default sort, newest first. -/
def rss_item.operator_less (a b : rss_item) : Bool := decide (b.pubDate_ < a.pubDate_)

/-- Embedding of `std::sort(items_.begin(), items_.end())` of line 749: the items in the
order of `operator<`. The places of items that `operator<` does not order, which `std::sort`
leaves open, are those of a stable sort. -/
def std_sort_items (items : List rss_item) : List rss_item :=
  items.insertionSort (fun a b => rss_item.operator_less b a = false)

/-- The inner loop of `rss_feed::update_items` (lines 737-743) over the items `jt` of the
feed with index `f`: `seen` are the items already passed, `items_` the item sequence of the
virtual feed. The predicate reads the item through its attributes, which may lead into the
registry as it is at that moment, `registry (seen ++ jt :: rest)`. The result is the items
of the feed and the `items_` of the virtual feed after the loop. -/
def update_items_inner (c : collab) (query : Str) (f : Nat)
    (registry : List rss_item → List rss_feed) :
    List rss_item → List rss_item → List rss_item → List rss_item × List rss_item
  | seen, [], items_ => (seen, items_)
  | seen, jt :: rest, items_ =>
    if c.matcher_matches query (jt.has_attribute (registry (seen ++ jt :: rest)))
        (jt.get_attribute c (registry (seen ++ jt :: rest))) then
      update_items_inner c query f registry (seen ++ [jt.set_feedptr (some f)]) rest
        (items_ ++ [jt.set_feedptr (some f)])
    else update_items_inner c query f registry (seen ++ [jt]) rest items_

/-- The outer loop of `rss_feed::update_items` (lines 735-745) over the feeds `it`: `done`
are the feeds already passed. The result is the feeds and the `items_` of the virtual feed
after the loop. -/
def update_items_outer (c : collab) (query : Str) :
    List rss_feed → List rss_feed → List rss_item → List rss_feed × List rss_item
  | done, [], items_ => (done, items_)
  | done, it :: rest, items_ =>
    if substr it.rssurl 0 6 ≠ "query:".toList then
      let r := update_items_inner c query done.length
        (fun its => done ++ { it with items_ := its } :: rest) [] it.items_ items_
      update_items_outer c query (done ++ [{ it with items_ := r.1 }]) rest r.2
    else update_items_outer c query (done ++ [it]) rest items_

/-- Embedding of `rss_feed::update_items(feeds)` (lines 719-756): the virtual feed and the
feeds after the call. The receiver is an object of its own: where the caller keeps it in
`feeds` as well, its url starts with `query:` and the loop passes over that entry. -/
def rss_feed.update_items (c : collab) (self : rss_feed) (feeds : List rss_feed) :
    rss_feed × List rss_feed :=
  if self.query.length = 0 then (self, feeds)
  else
    let r := update_items_outer c self.query [] feeds []
    ({ self with items_ := std_sort_items r.2 }, r.1)

/-- Whether the saved predicate `query` evaluates true on the item `x`, which the evaluator
reads through `has_attribute` and `get_attribute` with the registry `feeds`. -/
def query_holds (c : collab) (query : Str) (feeds : List rss_feed) (x : rss_item) : Bool :=
  c.matcher_matches query (x.has_attribute feeds) (x.get_attribute c feeds)

/-- An item without its back-reference. -/
def clear_feedptr (x : rss_item) : rss_item := { x with feedptr := none }

/-- A feed without the back-references of its items. -/
def clear_feedptrs (fd : rss_feed) : rss_feed :=
  { fd with items_ := fd.items_.map clear_feedptr }

/-- The materialised view in the words of the specification: for every feed whose url does
not start with `query:`, at index `f` of the registry, a copy of each of its items on which
the predicate holds, with the back-reference of the copy set to `f`. -/
def matching_copies (holds : rss_item → Bool) : Nat → List rss_feed → List rss_item
  | _, [] => []
  | f, fd :: rest =>
    (if "query:".toList <+: fd.rssurl_ then []
     else (fd.items_.filter holds).map (fun x => { x with feedptr := some f })) ++
      matching_copies holds (f + 1) rest

/-- Whether the ignore set given to `parse` matches the item `x` (line 291); no ignore set
matches nothing. -/
def ignored (c : collab) (ign : Option rss_ignores) (x : rss_item) : Bool :=
  match ign with
  | none => false
  | some ig => ig.matches_item c [] x

/-- The items built from the entries `items` of a document, in document order, the first of
them being entry number `k`. -/
def built_items (c : collab) (cfgcont : configcontainer) (my_uri : Str) (mrss : mrss_t)
    (feed : rss_feed) (k : Nat) (items : List mrss_item_t) : List rss_item :=
  (items.enumFrom k).filterMap (fun p => make_item c cfgcont my_uri mrss feed p.1 p.2)

/-- The five keys that `rss_feed::sort` sorts in ascending order by default. -/
def ascending_sort_keys : List Str :=
  ["title".toList, "flags".toList, "author".toList, "link".toList, "guid".toList]

/-- The text by which an item is compared under the sort key `k`, as the comparison sees it:
the C string of the accessor's result, lower-cased for the key `title`. -/
def sort_key (c : collab) (k : Str) (x : rss_item) : Str :=
  if k = "title".toList then (c_str (x.title c)).map tolower
  else if k = "flags".toList then c_str x.flags
  else if k = "author".toList then c_str (x.author c)
  else if k = "link".toList then c_str x.link
  else c_str x.guid

/-- A date text of the shape `[Www, ]D Mon Y T` in the words of the specification: the
optional weekday followed by a comma, the day, the month, the year and the time, whose parts
are joined by colons; one blank between them. -/
def date_text (weekday : Option Str) (day month year : Str) (time : List Str) : Str :=
  (match weekday with
    | some w => w ++ [',', ' ']
    | none => []) ++ day ++ ' ' :: month ++ ' ' :: year ++ ' ' :: [':'].intercalate time

/-- A decimal numeral within the range of `int`: digits only, at least one. -/
def is_numeral (s : Str) : Bool :=
  !s.isEmpty && s.all Char.isDigit && decide ((digits_value s : Int) ≤ INT_MAX)

/-- A token: at least one character, none of them white space. -/
def is_token (s : Str) : Bool := !s.isEmpty && s.all (fun ch => !isspace ch)

/-! ## The purge of deleted items (rss.cpp 839-850) -/

/-- Embedding of `std::vector<rss_item>::erase(iterator)`: removes the one item at position
`it`. -/
def erase_item (items_ : List rss_item) (it : Nat) : List rss_item := items_.eraseIdx it

/-- The loop of `rss_feed::purge_deleted_items` (lines 842-849), from iterator position `it`:
`while (it != end) if (it->deleted()) { erase(it); it = begin; } else ++it;`. -/
def purge_loop : Nat → List rss_item → Nat → Option (List rss_item)
  | 0, _, _ => none
  | fuel + 1, items_, it =>
    if it ≠ items_.length then
      match items_[it]? with
      | none => none
      | some x =>
        if x.deleted then purge_loop fuel (erase_item items_ it) 0
        else purge_loop fuel items_ (it + 1)
    else some items_

/-- Embedding of `rss_feed::purge_deleted_items()` (lines 839-850); the `scope_measure` object
only measures the time. The fuel is an upper bound of the number of iterations of the loop. -/
def rss_feed.purge_deleted_items (fd : rss_feed) : Option rss_feed :=
  (purge_loop ((fd.items_.length + 1) * (fd.items_.length + 1)) fd.items_ 0).map
    (fun items => { fd with items_ := items })

/-- The steps that the loop of `purge_deleted_items` still takes at most from position `it`:
a walk to the end, and a new walk from the start after each erased item. -/
def purge_steps (items_ : List rss_item) (it : Nat) : Nat :=
  (items_.filter (fun x => x.deleted)).length * (items_.length + 1) + (items_.length - it)

/-! ## Concrete collaborators for the worked examples -/

/-- A collaborator set for worked examples: every encoding is UTF-8, so that text conversion
returns its input; links are kept as they are; a rich title renders to itself; nothing is
reachable on the network. -/
def plain_collab : collab :=
  { convert_text := fun text _ _ => text,
    codeset := "UTF-8".toList,
    absolute_url := fun _ link => link,
    render := fun source _ => [source],
    mktime := fun t => t.tm_sec,
    strftime_gmtime := fun _ => [],
    time := fun _ => 0,
    year_garbage := 0,
    mrss_parse_url := fun _ => (MRSS_ERR_DOWNLOAD, none),
    mrss_parse_buffer := fun _ => (MRSS_ERR_PARSER, none),
    mrss_strerror := fun _ => "error".toList,
    mrss_get_last_modified := fun _ => (MRSS_ERR_DOWNLOAD, none),
    get_command_output := fun _ => [],
    retrieve_url := fun _ => [],
    run_program := fun _ _ => [],
    extract_filter := fun _ => ([], []),
    tokenize_quoted := fun str delimiters => tokenize str delimiters,
    matcher_parse := fun _ => true,
    matcher_matches := fun _ _ _ => false }

/-- A durable store with nothing persisted and no call received, whose database fails at
every call when `broken`. -/
def empty_cache (broken : Bool) : cache :=
  { lastmodified := [], calls := [], db_fails := fun _ => broken }

/-- The item of the worked examples: a fresh item with the given title, guid and unread
flag. -/
def sample_item (title guid : String) (unread : Bool) : rss_item :=
  { rss_item.new true with title_ := title.toList, guid_ := guid.toList, unread_ := unread }

/-- Two items whose titles are equal up to case, in this order. -/
def two_equal_titles : rss_feed :=
  { rss_feed.new true with
    items_ := [sample_item "News" "first" true, sample_item "news" "second" true] }

/-- An Atom 1.0 document with one entry that carries both a `content:encoded` field and an
Atom `content` field. -/
def atom_doc (encoded atom : Option Str) : mrss_t :=
  { encoding := none, title := none, title_type := none, description := none, link := none,
    language := none, pubDate := none, managingeditor := none,
    version := mrss_version_t.MRSS_VERSION_ATOM_1_0,
    item := [{ title := some "t".toList, title_type := none, link := none,
               description := some "plain".toList,
               author := none, guid := some "g".toList, pubDate := none,
               enclosure_url := none, enclosure_type := none,
               other_tags :=
                 [{ name := "encoded".toList, value := encoded,
                    ns := some "http://purl.org/rss/1.0/modules/content/".toList },
                  { name := "content".toList, value := atom,
                    ns := some "http://www.w3.org/2005/Atom".toList }] }] }

/-- The collaborators of `plain_collab` with a transport that answers every http fetch with
the given status and document. -/
def with_fetch (err : mrss_error_t) (doc : Option mrss_t) : collab :=
  { plain_collab with mrss_parse_url := fun _ => (err, doc) }

/-- The descriptions of the items of the feed that a call of `parse` returned. -/
def returned_descriptions (r : Option parse_result) : Option (List Str) :=
  match r with
  | some { ret := Except.ok fd, .. } => some (fd.items_.map (fun it => it.description_))
  | _ => none

/-- Whether a call of `parse` returned a feed (rather than throwing), and the `empty` flag and
number of items of that feed. -/
def returned_feed_summary (r : Option parse_result) : Option (Bool × Nat) :=
  match r with
  | some { ret := Except.ok fd, .. } => some (fd.empty, fd.items_.length)
  | _ => none

/-- A memory with one feed that owns the item with guid "g", and one copy of that item held
outside the feed whose back-reference points to the feed; both are unread. -/
def copy_world (broken : Bool) : world :=
  { feeds := [{ rss_feed.new true with items_ := [sample_item "t" "g" true] }],
    objs := [{ sample_item "t" "g" true with feedptr := some 0 }],
    dummy_item := rss_item.new false,
    ch := empty_cache broken }

/-- The collaborators of `plain_collab` with a probe that answers with the given status and
timestamp. -/
def with_probe (err : mrss_error_t) (lastmod : Option Int) : collab :=
  { plain_collab with mrss_get_last_modified := fun _ => (err, lastmod) }

/-- An ignore set with one rule for every feed, and nothing on its two url lists. -/
def one_rule_ignores (exp : String) : rss_ignores :=
  { ignores := [("*".toList, { exp := exp.toList })], ignores_lastmodified := [],
    resetflag := [] }

/-- The collaborators of `plain_collab` with a predicate compiler that accepts exactly the
expressions on which `well_formed` holds. -/
def with_compiler (well_formed : Str → Bool) : collab :=
  { plain_collab with matcher_parse := well_formed }

/-- An ignore set with one rule and one url on each of its two lists. -/
def sample_ignores : rss_ignores :=
  { ignores := [("*".toList, { exp := "unread = \"no\"".toList })],
    ignores_lastmodified := ["http://a.example/".toList],
    resetflag := ["http://b.example/".toList] }

/-- The ten attribute names that `rss_item` answers itself. -/
def item_attribute_names : List Str :=
  ["title".toList, "link".toList, "author".toList, "content".toList, "date".toList,
   "guid".toList, "unread".toList, "enclosure_url".toList, "enclosure_type".toList,
   "flags".toList]

/-- A feed titled "Title" with the link "http://example.org/", and an unread and a read
item. -/
def titled_feed : rss_feed :=
  { rss_feed.new true with
    title_ := "Title".toList, link_ := "http://example.org/".toList,
    rssurl_ := "http://example.org/rss".toList,
    items_ := [sample_item "a" "1" true, sample_item "b" "2" false] }

/-- An entry of a document with the given title, link and guid and nothing else. -/
def source_item (title link guid : Option String) : mrss_item_t :=
  { title := title.map String.toList, title_type := none, link := link.map String.toList,
    description := none, author := none, guid := guid.map String.toList, pubDate := none,
    enclosure_url := none, enclosure_type := none, other_tags := [] }

/-- An RSS 2.0 document with the given entries and no field of its own. -/
def rss_doc (items : List mrss_item_t) : mrss_t :=
  { encoding := none, title := none, title_type := none, description := none, link := none,
    language := none, pubDate := none, managingeditor := none,
    version := mrss_version_t.MRSS_VERSION_2_0, item := items }

/-- An entry without guid, with the link "http://example.org/1", the title "T" and a date. -/
def dated_item : mrss_item_t :=
  { source_item (some "T") (some "http://example.org/1") none with
    pubDate := some "Mon, 06 Jan 2020 15:04:05".toList }

/-- The collaborators of `plain_collab` with a predicate evaluator that knows the one
predicate `unread = "yes"`: it holds on an entity that has the attribute `unread` with the
value "yes". -/
def unread_collab : collab :=
  { plain_collab with
    matcher_matches := fun exp has_attribute get_attribute =>
      decide (exp = "unread = \"yes\"".toList) && has_attribute "unread".toList &&
        decide (get_attribute "unread".toList = "yes".toList) }

/-- A virtual feed with the saved predicate `unread = "yes"` that holds a stale item. -/
def unread_query_feed : rss_feed :=
  { rss_feed.new true with
    rssurl_ := "query:Unread:unread = \"yes\"".toList, title_ := "Unread".toList,
    query := "unread = \"yes\"".toList, items_ := [sample_item "old" "0" true] }

/-- The collaborators of `plain_collab` with a transport that answers every http fetch with
the given document, and a predicate evaluator that knows the one predicate
`title =~ "foo"`: it holds on an entity whose attribute `title` contains "foo". -/
def title_foo_collab (doc : mrss_t) : collab :=
  { plain_collab with
    mrss_parse_url := fun _ => (MRSS_OK, some doc),
    matcher_matches := fun exp has_attribute get_attribute =>
      decide (exp = "title =~ \"foo\"".toList) && has_attribute "title".toList &&
        decide ("foo".toList <:+: get_attribute "title".toList) }

/-- The titles and guids of the items of the feed that a call of `parse` returned, and the
calls that the durable store received. -/
def returned_titles_and_calls (r : Option parse_result) :
    Option (List (Str × Str) × List cache_call) :=
  match r with
  | some { ret := Except.ok fd, ch := ch, .. } =>
    some (fd.items_.map (fun it => (it.title_, it.guid_)), ch.calls)
  | _ => none

/-- A document with an entry titled "foo bar" and an entry titled "baz", in this order. -/
def foo_baz_doc : mrss_t :=
  rss_doc [source_item (some "foo bar") none (some "g1"),
    source_item (some "baz") none (some "g2")]

/-- The registry whose one feed, at index 0, is `titled_feed`. -/
def titled_registry : List rss_feed := [titled_feed]

/-- Three items to sort: the titles "b", "A", "a" with the guids "1", "2", "3". -/
def three_titles : rss_feed :=
  { rss_feed.new true with
    items_ := [sample_item "b" "1" true, sample_item "A" "2" true, sample_item "a" "3" true] }

/-- An item of the worked examples with a publication time and a deleted flag. -/
def stamped_item (guid : String) (pubDate : Int) (deleted : Bool) : rss_item :=
  { rss_item.new true with guid_ := guid.toList, pubDate_ := pubDate, deleted_ := deleted }

/-- Three items held oldest first: the guids "1", "2", "3" with the times 10, 20, 30. -/
def oldest_first : rss_feed :=
  { rss_feed.new true with
    items_ := [stamped_item "1" 10 false, stamped_item "2" 20 false,
      stamped_item "3" 30 false] }

/-- Four items of which the first, the second and the last are deleted. -/
def partly_deleted : rss_feed :=
  { rss_feed.new true with
    items_ := [stamped_item "1" 10 true, stamped_item "2" 20 true,
      stamped_item "3" 30 false, stamped_item "4" 40 true] }

/-- A feed titled "Stored" with the tags "news", "~Shown", "~Other", in this order. -/
def tagged_feed : rss_feed :=
  { rss_feed.new true with
    title_ := "Stored".toList, tags_ := ["news".toList, "~Shown".toList, "~Other".toList] }

/-- An entry with the given author, the given `creator` field of the Dublin Core namespace
and a date. -/
def authored_item (author creator : Option String) : mrss_item_t :=
  { source_item (some "T") none none with
    author := author.map String.toList,
    pubDate := some "06 Jan 20 9:4".toList,
    other_tags := match creator with
      | some v => [{ name := "creator".toList, value := some v.toList,
                     ns := some "http://purl.org/dc/elements/1.1/".toList }]
      | none => [] }

/-- An RSS 2.0 document with the given managing editor and no entries. -/
def edited_doc (managingeditor : Option String) : mrss_t :=
  { rss_doc [] with managingeditor := managingeditor.map String.toList }

/-! # Properties -/

/-! ## Flags normalisation -/

/-- C1 (the code at the failing input): on the flags text "cba c2a" the function
`rss_item::sort_flags` returns with the flags "2ac", in which the character `2` is not
alphabetic (and from which the flag `b` is missing), where the normalised flags are "abc". -/
theorem sort_flags_keeps_a_digit :
    (rss_item.sort_flags { rss_item.new true with flags_ := "cba c2a".toList }).map
        (fun y => y.flags) = some "2ac".toList ∧
      ¬ (∀ ch ∈ "2ac".toList, isalpha ch = true) := by
  decide

/-- C3 (the code at the failing input): the two items "first" and "second", in this order,
have titles that `strcasecmp` finds equal; after `rss_feed::sort("title-desc")` the item
"second" stands before the item "first", because the stably sorted sequence is reversed as
a whole. -/
theorem sort_title_desc_swaps_equal_titles :
    two_equal_titles.items_.map (fun it => it.guid) = ["first".toList, "second".toList] ∧
      strcasecmp (c_str "News".toList) (c_str "news".toList) = 0 ∧
      (rss_feed.sort plain_collab two_equal_titles "title-desc".toList).items_.map
        (fun it => it.guid) = ["second".toList, "first".toList] := by
  decide

/-! ## The ingestion pipeline -/

/-- C4 (the code at the failing input): for an Atom 1.0 document whose entry has the
`content:encoded` text "E" and the Atom content "A" (always-display-description disabled),
`rss_parser::parse` stores the description "A": the later source replaces the earlier
non-empty one. With an empty Atom content the text "E" is replaced too, and the plain
description is stored. -/
theorem parse_atom_content_replaces_encoded :
    returned_descriptions (parse
        (with_fetch MRSS_OK (some (atom_doc (some "E".toList) (some "A".toList))))
        { always_display_description := false } none (empty_cache false)
        "http://example.org/feed".toList) = some ["A".toList] ∧
      returned_descriptions (parse
        (with_fetch MRSS_OK (some (atom_doc (some "E".toList) (some "".toList))))
        { always_display_description := false } none (empty_cache false)
        "http://example.org/feed".toList) = some ["plain".toList] := by
  decide

/-- C5 (the code at the failing input): for an http source whose fetch ends with the status
`MRSS_ERR_DATA` and no document, `rss_parser::parse` throws nothing: it returns a feed, still
flagged empty and without items. -/
theorem parse_returns_feed_on_error_without_document :
    (MRSS_OK < MRSS_ERR_DATA ∧ MRSS_ERR_DATA ≤ MRSS_ERR_DATA) ∧
      returned_feed_summary (parse (with_fetch MRSS_ERR_DATA none)
        { always_display_description := false } none (empty_cache false)
        "http://example.org/feed".toList) = some (true, 0) := by
  decide

/-! ## The unread flag -/

/-- Reading after writing: the written reference shows the new object, if it denotes one;
every other reference shows what it showed. -/
theorem item_at_put_item (w : world) (r t : item_ref) (z : rss_item) :
    (w.put_item r z).item_at t =
      if r = t then (w.item_at t).map (fun _ => z) else w.item_at t := by
  cases r with
  | obj i =>
    cases t with
    | obj j =>
      by_cases h : i = j
      · subst h
        simp only [world.put_item, world.item_at, if_true]
        rw [List.getElem?_set]
        by_cases hl : i < w.objs.length
        · simp [hl, List.getElem?_eq_getElem hl]
        · simp [hl, List.getElem?_eq_none (Nat.le_of_not_lt hl)]
      · have hne : item_ref.obj i ≠ item_ref.obj j := by
          intro hc; injection hc with hc; exact h hc
        simp only [world.put_item, world.item_at, if_neg hne]
        rw [List.getElem?_set]
        simp [h]
    | member f k => simp [world.put_item, world.item_at]
    | dummy => simp [world.put_item, world.item_at]
  | member f k =>
    cases t with
    | obj j => simp [world.put_item, world.item_at]
    | member g l =>
      simp only [world.put_item, world.item_at, List.getElem?_modify]
      by_cases hf : f = g
      · subst hf
        cases hfd : w.feeds[f]? with
        | none => simp
        | some fd =>
          simp only [if_true, Option.map_eq_map, Option.map_some', Option.bind_some,
            Option.some_bind]
          rw [List.getElem?_set]
          by_cases hk : k = l
          · subst hk
            by_cases hl : k < fd.items_.length
            · simp [hl, List.getElem?_eq_getElem hl]
            · simp [hl, List.getElem?_eq_none (Nat.le_of_not_lt hl)]
          · have hne : item_ref.member f k ≠ item_ref.member f l := by
              intro hc; injection hc with _ hc; exact hk hc
            simp [hk, hne]
      · have hne : item_ref.member f k ≠ item_ref.member g l := by
          intro hc; injection hc with hc _; exact hf hc
        simp only [hf, if_false, if_neg hne]
        cases w.feeds[g]? <;> simp
    | dummy => simp [world.put_item, world.item_at]
  | dummy =>
    cases t with
    | obj j => simp [world.put_item, world.item_at]
    | member g l => simp [world.put_item, world.item_at]
    | dummy => simp [world.put_item, world.item_at]

/-- What a reference shows after `set_unread_nowrite` on the reference `r`. -/
theorem item_at_set_unread_nowrite (w : world) (r t : item_ref) (v : Bool) :
    (set_unread_nowrite w r v).item_at t =
      (w.item_at t).map (fun y => if r = t then { y with unread_ := v } else y) := by
  unfold set_unread_nowrite
  cases h : w.item_at r with
  | none =>
    by_cases hrt : r = t
    · subst hrt; simp [h]
    · simp [hrt]
  | some x =>
    simp only [item_at_put_item]
    by_cases hrt : r = t
    · subst hrt; simp [h]
    · simp [hrt]

theorem set_unread_nowrite_ch (w : world) (r : item_ref) (v : Bool) :
    (set_unread_nowrite w r v).ch = w.ch := by
  unfold set_unread_nowrite
  cases w.item_at r with
  | none => rfl
  | some x => cases r <;> rfl

/-- The notification of the parent feed leaves the notifying object as it is. -/
theorem notify_parent_feed_item_at_this (w : world) (this : item_ref) (x : rss_item)
    (h : w.item_at this = some x) : (notify_parent_feed w this).item_at this = some x := by
  unfold notify_parent_feed
  simp only [h]
  cases hf : x.feedptr with
  | none => exact h
  | some f =>
    simp only []
    by_cases hl : f < w.feeds.length
    · rw [if_pos hl, item_at_set_unread_nowrite, h]
      by_cases hr : get_item_by_guid w f x.guid_ = this <;> simp [hr]
    · rw [if_neg hl]; exact h

theorem notify_parent_feed_ch (w : world) (this : item_ref) :
    (notify_parent_feed w this).ch = w.ch := by
  unfold notify_parent_feed
  cases w.item_at this with
  | none => rfl
  | some x =>
    simp only []
    cases x.feedptr with
    | none => rfl
    | some f =>
      simp only []
      by_cases hl : f < w.feeds.length
      · rw [if_pos hl, set_unread_nowrite_ch]
      · rw [if_neg hl]

theorem item_at_with_ch (w : world) (c : cache) (t : item_ref) :
    world.item_at { w with ch := c } t = w.item_at t := by
  cases t <;> rfl

/-- The run of `set_unread` when the flag changes, the item has a store and the write
fails: the flag is set, the parent feed notified, the write attempted, the flag reset. -/
theorem set_unread_failed_write (w : world) (this : item_ref) (u : Bool)
    (x : rss_item) (hx : w.item_at this = some x) (hu : x.unread_ ≠ u) (hch : x.ch = true)
    (hfail : w.ch.db_fails w.ch.calls.length = true) :
    set_unread w this u =
      (set_unread_nowrite
        { notify_parent_feed (set_unread_nowrite w this u) this with
          ch := { w.ch with calls := w.ch.calls ++
            [cache_call.update_rssitem_unread_and_enqueued { x with unread_ := u }
              x.feedurl_] } } this x.unread_,
        some { at_call := w.ch.calls.length }) := by
  have h1 : (set_unread_nowrite w this u).item_at this = some { x with unread_ := u } := by
    rw [item_at_set_unread_nowrite, hx]; simp
  have h2 := notify_parent_feed_item_at_this _ this _ h1
  have hc : (notify_parent_feed (set_unread_nowrite w this u) this).ch = w.ch := by
    rw [notify_parent_feed_ch, set_unread_nowrite_ch]
  have hne : (x.unread_ != u) = true := by simpa using hu
  unfold set_unread
  simp only [hx, hne, if_true, h2, hch, cache.update_rssitem_unread_and_enqueued, hc, hfail]

/-- C6: when `rss_item::set_unread(u)` is called on an item whose unread flag differs from
`u` and the write of the durable store fails with a `dbexception`, the exception leaves the
call, the item's unread flag afterwards is the one it had before the call, and the store
received exactly one call, the write of the item with the new flag. -/
theorem set_unread_failed_write_rolls_back (w : world) (this : item_ref) (u : Bool)
    (x : rss_item) (hx : w.item_at this = some x) (hu : x.unread_ ≠ u) (hch : x.ch = true)
    (hfail : w.ch.db_fails w.ch.calls.length = true) :
    (set_unread w this u).2 = some { at_call := w.ch.calls.length } ∧
      ((set_unread w this u).1.item_at this).map (fun y => y.unread_) = some x.unread_ ∧
      (set_unread w this u).1.ch.calls = w.ch.calls ++
        [cache_call.update_rssitem_unread_and_enqueued { x with unread_ := u } x.feedurl_] := by
  have h1 : (set_unread_nowrite w this u).item_at this = some { x with unread_ := u } := by
    rw [item_at_set_unread_nowrite, hx]; simp
  have h2 := notify_parent_feed_item_at_this _ this _ h1
  rw [set_unread_failed_write w this u x hx hu hch hfail]
  refine ⟨rfl, ?_, ?_⟩
  · simp only []
    rw [item_at_set_unread_nowrite, item_at_with_ch, h2]
    simp
  · simp only []
    rw [set_unread_nowrite_ch]

/-- C6 at a concrete memory: a copy of an unread item, its store broken, is marked read. -/
theorem set_unread_failed_write_rolls_back_witness :
    (copy_world true).item_at (item_ref.obj 0)
        = some { sample_item "t" "g" true with feedptr := some 0 } ∧
      (set_unread (copy_world true) (item_ref.obj 0) false).2 = some { at_call := 0 } ∧
      ((set_unread (copy_world true) (item_ref.obj 0) false).1.item_at (item_ref.obj 0)).map
        (fun y => y.unread_) = some true ∧
      (set_unread (copy_world true) (item_ref.obj 0) false).1.ch.calls =
        [cache_call.update_rssitem_unread_and_enqueued
          { sample_item "t" "g" false with feedptr := some 0 } []] :=
  ⟨by decide,
    set_unread_failed_write_rolls_back (copy_world true) (item_ref.obj 0) false
      { sample_item "t" "g" true with feedptr := some 0 } (by decide) (by decide) (by decide)
      (by decide)⟩

/-- C7 (the code at the failing input): a copy of the unread item "g", held outside its
owning feed and pointing back to it, is marked read while the store is broken. After the
failed call the copy is unread again, but the owning feed's item "g", unread before the
call, is left read. -/
theorem set_unread_leaves_feed_copy_changed :
    ((copy_world true).item_at (item_ref.member 0 0)).map (fun y => y.unread_) = some true ∧
      (set_unread (copy_world true) (item_ref.obj 0) false).2.isSome = true ∧
      ((set_unread (copy_world true) (item_ref.obj 0) false).1.item_at (item_ref.obj 0)).map
        (fun y => y.unread_) = some true ∧
      ((set_unread (copy_world true) (item_ref.obj 0) false).1.item_at
        (item_ref.member 0 0)).map (fun y => y.unread_) = some false := by
  decide

/-! ## The staleness gate -/

theorem substr_zero_eq_iff (s p : Str) : substr s 0 p.length = p ↔ p <+: s := by
  unfold substr
  rw [List.drop_zero, List.prefix_iff_eq_take]
  exact eq_comm

theorem matches_lastmodified_iff (ig : rss_ignores) (url : Str) :
    ig.matches_lastmodified url = true ↔ url ∈ ig.ignores_lastmodified := by
  unfold rss_ignores.matches_lastmodified
  rw [List.any_eq_true]
  constructor
  · rintro ⟨x, hx, he⟩
    rw [decide_eq_true_eq] at he
    rw [he]; exact hx
  · intro h
    exact ⟨url, h, by simp⟩

theorem not_on_always_download_list (ign : Option rss_ignores) (my_uri : Str) :
    (∀ ig, ign = some ig → my_uri ∉ ig.ignores_lastmodified) →
    (match ign with
      | some ig => ig.matches_lastmodified my_uri
      | none => false) = false := by
  intro hlist
  cases ign with
  | none => rfl
  | some ig =>
    have := hlist ig rfl
    rw [← matches_lastmodified_iff] at this
    simpa using this

/-- C8: for a source that starts with neither `http:` nor `https:`, and for a source on the
always-download list of the ignore set, `rss_parser::check_and_update_lastmodified` answers
true whatever the stored timestamp, the probe's status and the probed timestamp are, and
the durable store is the one before the call: it received no call. -/
theorem check_lastmodified_always_stale (c : collab) (my_uri : Str)
    (ign : Option rss_ignores) (ch : cache)
    (h : (¬ "http:".toList <+: my_uri ∧ ¬ "https:".toList <+: my_uri) ∨
      (∃ ig, ign = some ig ∧ my_uri ∈ ig.ignores_lastmodified)) :
    check_and_update_lastmodified c my_uri ign ch = (true, ch) := by
  have e5 := substr_zero_eq_iff my_uri "http:".toList
  have e6 := substr_zero_eq_iff my_uri "https:".toList
  have l5 : "http:".toList.length = 5 := by decide
  have l6 : "https:".toList.length = 6 := by decide
  rw [l5] at e5
  rw [l6] at e6
  unfold check_and_update_lastmodified
  by_cases hh : substr my_uri 0 5 ≠ "http:".toList ∧ substr my_uri 0 6 ≠ "https:".toList
  · rw [if_pos hh]
  · rw [if_neg hh]
    rcases h with ⟨h1, h2⟩ | ⟨ig, hig, hmem⟩
    · exact absurd ⟨fun hc => h1 (e5.mp hc), fun hc => h2 (e6.mp hc)⟩ hh
    · subst hig
      have := (matches_lastmodified_iff ig my_uri).mpr hmem
      simp only [this, if_true]

/-- C8 at concrete inputs: an `exec:` source, and an http source on the always-download
list. -/
theorem check_lastmodified_always_stale_witness :
    ((¬ "http:".toList <+: "exec:cmd".toList ∧ ¬ "https:".toList <+: "exec:cmd".toList) ∨
      (∃ ig, (none : Option rss_ignores) = some ig ∧
        "exec:cmd".toList ∈ ig.ignores_lastmodified)) ∧
      check_and_update_lastmodified plain_collab "exec:cmd".toList none (empty_cache false)
        = (true, empty_cache false) :=
  ⟨Or.inl (by decide),
    check_lastmodified_always_stale plain_collab "exec:cmd".toList none (empty_cache false)
      (Or.inl (by decide))⟩

/-- C9: for an http(s) source that is not on the always-download list,
`rss_parser::check_and_update_lastmodified` answers false if the probe fails, true if the
probe succeeds with the timestamp 0, true if the probed timestamp is greater than the stored
one, and false otherwise. The store is asked for the stored timestamp and is written only in
the "greater" case, where the probed timestamp becomes the stored one; the stored timestamp
after the call is never less than before. -/
theorem check_lastmodified_probe (c : collab) (my_uri : Str) (ign : Option rss_ignores)
    (ch : cache) (hhttp : "http:".toList <+: my_uri ∨ "https:".toList <+: my_uri)
    (hlist : ∀ ig, ign = some ig → my_uri ∉ ig.ignores_lastmodified) :
    (check_and_update_lastmodified c my_uri ign ch).1 =
        (if (c.mrss_get_last_modified my_uri).1 ≠ MRSS_OK then false
         else if (c.mrss_get_last_modified my_uri).2.getD 0 = 0 then true
         else if (c.mrss_get_last_modified my_uri).2.getD 0 > (ch.get_lastmodified my_uri).1
         then true else false) ∧
      (check_and_update_lastmodified c my_uri ign ch).2.calls =
        (if (c.mrss_get_last_modified my_uri).1 = MRSS_OK ∧
            (c.mrss_get_last_modified my_uri).2.getD 0 ≠ 0 ∧
            (c.mrss_get_last_modified my_uri).2.getD 0 > (ch.get_lastmodified my_uri).1
         then ch.calls ++ [cache_call.get_lastmodified my_uri,
            cache_call.set_lastmodified my_uri ((c.mrss_get_last_modified my_uri).2.getD 0)]
         else ch.calls ++ [cache_call.get_lastmodified my_uri]) ∧
      ((check_and_update_lastmodified c my_uri ign ch).2.get_lastmodified my_uri).1 =
        (if (c.mrss_get_last_modified my_uri).1 = MRSS_OK ∧
            (c.mrss_get_last_modified my_uri).2.getD 0 ≠ 0 ∧
            (c.mrss_get_last_modified my_uri).2.getD 0 > (ch.get_lastmodified my_uri).1
         then (c.mrss_get_last_modified my_uri).2.getD 0
         else (ch.get_lastmodified my_uri).1) ∧
      (ch.get_lastmodified my_uri).1 ≤
        ((check_and_update_lastmodified c my_uri ign ch).2.get_lastmodified my_uri).1 := by
  have e5 := substr_zero_eq_iff my_uri "http:".toList
  have e6 := substr_zero_eq_iff my_uri "https:".toList
  have l5 : "http:".toList.length = 5 := by decide
  have l6 : "https:".toList.length = 6 := by decide
  rw [l5] at e5
  rw [l6] at e6
  have hh : ¬ (substr my_uri 0 5 ≠ "http:".toList ∧ substr my_uri 0 6 ≠ "https:".toList) := by
    rintro ⟨h1, h2⟩
    rcases hhttp with h | h
    · exact h1 (e5.mpr h)
    · exact h2 (e6.mpr h)
  have hl := not_on_always_download_list ign my_uri hlist
  unfold check_and_update_lastmodified
  rw [if_neg hh, hl]
  simp only [Bool.false_eq_true, if_false]
  generalize (c.mrss_get_last_modified my_uri).1 = err
  generalize (c.mrss_get_last_modified my_uri).2.getD 0 = newlm
  by_cases h1 : err = MRSS_OK
  · by_cases h2 : newlm = 0
    · simp [h1, h2, cache.get_lastmodified]
    · by_cases h3 : newlm > (ch.get_lastmodified my_uri).1
      · have h3b : newlm > (List.lookup my_uri ch.lastmodified).getD 0 := h3
        simp [h1, h2, h3b, cache.get_lastmodified, cache.set_lastmodified, List.lookup]
        exact le_of_lt h3b
      · have h3b : ¬ newlm > (List.lookup my_uri ch.lastmodified).getD 0 := h3
        simp [h1, h2, h3b, cache.get_lastmodified]
  · simp [h1, cache.get_lastmodified]

/-- C9 at concrete inputs: an http source with nothing stored, probed with timestamp 5. -/
theorem check_lastmodified_probe_witness :
    ("http:".toList <+: "http://example.org/feed".toList ∨
        "https:".toList <+: "http://example.org/feed".toList) ∧
      (check_and_update_lastmodified (with_probe MRSS_OK (some 5))
        "http://example.org/feed".toList none (empty_cache false)).1 = true ∧
      (check_and_update_lastmodified (with_probe MRSS_OK (some 5))
        "http://example.org/feed".toList none (empty_cache false)).2.calls =
        [cache_call.get_lastmodified "http://example.org/feed".toList,
         cache_call.set_lastmodified "http://example.org/feed".toList 5] ∧
      ((check_and_update_lastmodified (with_probe MRSS_OK (some 5))
        "http://example.org/feed".toList none (empty_cache false)).2.get_lastmodified
          "http://example.org/feed".toList).1 = 5 ∧
      (0 : Int) ≤ ((check_and_update_lastmodified (with_probe MRSS_OK (some 5))
        "http://example.org/feed".toList none (empty_cache false)).2.get_lastmodified
          "http://example.org/feed".toList).1 :=
  ⟨Or.inl (by decide),
    check_lastmodified_probe (with_probe MRSS_OK (some 5))
      "http://example.org/feed".toList none (empty_cache false) (Or.inl (by decide))
      (fun _ h => nomatch h)⟩

/-! ## The ignore engine -/

theorem matches_loop_iff (c : collab) (feeds : List rss_feed) (item : rss_item) :
    ∀ rules : List (Str × matcher), matches_loop c feeds item rules = true ↔
      ∃ rule ∈ rules, (rule.1 = "*".toList ∨ rule.1 = item.feedurl) ∧
        c.matcher_matches rule.2.exp (item.has_attribute feeds)
          (item.get_attribute c feeds) = true := by
  intro rules
  induction rules with
  | nil =>
    unfold matches_loop
    constructor
    · intro h; cases h
    · rintro ⟨rule, hr, _⟩; cases hr
  | cons it rest ih =>
    unfold matches_loop
    by_cases hs : it.1 = "*".toList ∨ item.feedurl = it.1
    · rw [if_pos hs]
      by_cases hm : c.matcher_matches it.2.exp (item.has_attribute feeds)
          (item.get_attribute c feeds) = true
      · rw [if_pos hm]
        simp only [true_iff]
        exact ⟨it, List.mem_cons_self it rest, hs.imp id Eq.symm, hm⟩
      · rw [if_neg hm, ih]
        constructor
        · rintro ⟨rule, hr, h⟩
          exact ⟨rule, List.mem_cons_of_mem it hr, h⟩
        · rintro ⟨rule, hr, h⟩
          rw [List.mem_cons] at hr
          rcases hr with rfl | hr
          · exact absurd h.2 hm
          · exact ⟨rule, hr, h⟩
    · rw [if_neg hs, ih]
      constructor
      · rintro ⟨rule, hr, h⟩
        exact ⟨rule, List.mem_cons_of_mem it hr, h⟩
      · rintro ⟨rule, hr, h⟩
        rw [List.mem_cons] at hr
        rcases hr with rfl | hr
        · exact absurd (h.1.imp id Eq.symm) hs
        · exact ⟨rule, hr, h⟩

/-- C10: `rss_ignores::matches(item)` is true exactly when some registered rule has the
scope `*` or a scope equal to the item's feed url and a predicate that the evaluator finds
true on the item's attributes; with no rule registered it is false. -/
theorem ignores_matches_iff_some_rule (c : collab) (feeds : List rss_feed)
    (ig : rss_ignores) (item : rss_item) :
    (ig.matches_item c feeds item = true ↔
      ∃ rule ∈ ig.ignores, (rule.1 = "*".toList ∨ rule.1 = item.feedurl) ∧
        c.matcher_matches rule.2.exp (item.has_attribute feeds)
          (item.get_attribute c feeds) = true) ∧
      rss_ignores.matches_item c feeds { ig with ignores := [] } item = false :=
  ⟨matches_loop_iff c feeds item ig.ignores, rfl⟩

/-! ## The commands of the ignore engine -/

theorem push_back_all_eq (params : List Str) : ∀ list : List Str,
    push_back_all list params = list ++ params := by
  induction params with
  | nil => intro list; simp [push_back_all]
  | cons it rest ih => intro list; simp [push_back_all, ih]

/-- C11: `rss_ignores::handle_action` answers `ignore-article` with fewer than two parameters
by `AHS_TOO_FEW_PARAMS`, `ignore-article` with a second parameter that the predicate compiler
rejects by `AHS_INVALID_PARAMS`, and every action other than `ignore-article`,
`always-download` and `reset-unread-on-update` by `AHS_INVALID_COMMAND`, each time leaving
the whole ignore set (rules and both url lists) as it was; `ignore-article` with a
well-formed second parameter is answered by `AHS_OK` and appends the one rule made of the
first parameter and the predicate of the second at the end of the rules, leaving the two url
lists as they were. -/
theorem handle_action_rejects_atomically (c : collab) (ig : rss_ignores) :
    (∀ params : List Str, params.length < 2 →
        ig.handle_action c "ignore-article".toList params =
          (action_handler_status.AHS_TOO_FEW_PARAMS, ig)) ∧
      (∀ (p0 p1 : Str) (rest : List Str), c.matcher_parse p1 = false →
        ig.handle_action c "ignore-article".toList (p0 :: p1 :: rest) =
          (action_handler_status.AHS_INVALID_PARAMS, ig)) ∧
      (∀ (action : Str) (params : List Str), action ≠ "ignore-article".toList →
        action ≠ "always-download".toList → action ≠ "reset-unread-on-update".toList →
        ig.handle_action c action params = (action_handler_status.AHS_INVALID_COMMAND, ig)) ∧
      (∀ (p0 p1 : Str) (rest : List Str), c.matcher_parse p1 = true →
        ig.handle_action c "ignore-article".toList (p0 :: p1 :: rest) =
          (action_handler_status.AHS_OK,
            { ignores := ig.ignores ++ [(p0, { exp := p1 })],
              ignores_lastmodified := ig.ignores_lastmodified,
              resetflag := ig.resetflag })) := by
  refine ⟨?_, ?_, ?_, ?_⟩
  · intro params h
    unfold rss_ignores.handle_action
    rw [if_pos rfl]
    match params, h with
    | [], _ => rfl
    | [_], _ => rfl
    | _ :: _ :: _, h => exact absurd h (by simp)
  · intro p0 p1 rest h
    unfold rss_ignores.handle_action
    rw [if_pos rfl]
    simp [h]
  · intro action params h1 h2 h3
    unfold rss_ignores.handle_action
    rw [if_neg h1, if_neg h2, if_neg h3]
  · intro p0 p1 rest h
    unfold rss_ignores.handle_action
    rw [if_pos rfl]
    simp [h]

/-- C11 at concrete inputs: the four kinds of command on an ignore set with one rule, with a
compiler that accepts only `title =~ "foo"`. -/
theorem handle_action_rejects_atomically_witness :
    sample_ignores.handle_action (with_compiler (fun e => e = "title =~ \"foo\"".toList))
        "ignore-article".toList ["*".toList] =
        (action_handler_status.AHS_TOO_FEW_PARAMS, sample_ignores) ∧
      sample_ignores.handle_action (with_compiler (fun e => e = "title =~ \"foo\"".toList))
        "ignore-article".toList ["*".toList, "title =~".toList] =
        (action_handler_status.AHS_INVALID_PARAMS, sample_ignores) ∧
      sample_ignores.handle_action (with_compiler (fun e => e = "title =~ \"foo\"".toList))
        "ignore".toList ["*".toList, "title =~ \"foo\"".toList] =
        (action_handler_status.AHS_INVALID_COMMAND, sample_ignores) ∧
      sample_ignores.handle_action (with_compiler (fun e => e = "title =~ \"foo\"".toList))
        "ignore-article".toList ["*".toList, "title =~ \"foo\"".toList] =
        (action_handler_status.AHS_OK,
          { ignores := sample_ignores.ignores ++
              [("*".toList, { exp := "title =~ \"foo\"".toList })],
            ignores_lastmodified := sample_ignores.ignores_lastmodified,
            resetflag := sample_ignores.resetflag }) :=
  ⟨(handle_action_rejects_atomically _ sample_ignores).1 ["*".toList] (by decide),
    (handle_action_rejects_atomically _ sample_ignores).2.1 "*".toList "title =~".toList []
      (by decide),
    (handle_action_rejects_atomically _ sample_ignores).2.2.1 "ignore".toList
      ["*".toList, "title =~ \"foo\"".toList] (by decide) (by decide) (by decide),
    (handle_action_rejects_atomically _ sample_ignores).2.2.2 "*".toList
      "title =~ \"foo\"".toList [] (by decide)⟩

theorem any_eq_append_iff (list us : List Str) (u : Str) :
    (list ++ us).any (fun it => decide (u = it)) = true ↔
      list.any (fun it => decide (u = it)) = true ∨ u ∈ us := by
  rw [List.any_append, Bool.or_eq_true]
  constructor
  · rintro (h | h)
    · exact Or.inl h
    · rw [List.any_eq_true] at h
      obtain ⟨x, hx, he⟩ := h
      rw [decide_eq_true_eq] at he
      rw [he]; exact Or.inr hx
  · rintro (h | h)
    · exact Or.inl h
    · exact Or.inr (List.any_eq_true.mpr ⟨u, h, by simp⟩)

/-- C12: for every list of urls `us`, `handle_action("always-download", us)` returns
`AHS_OK`, and afterwards `matches_lastmodified(u)` holds exactly for the urls `u` for which it
held before or that occur in `us`, while the reset-unread list and the rules are as before;
in the same way `handle_action("reset-unread-on-update", us)` returns `AHS_OK` and extends
exactly the urls on which `matches_resetunread` holds, while the always-download list and
the rules are as before. -/
theorem handle_action_extends_url_lists (c : collab) (ig : rss_ignores) (us : List Str) :
    ((ig.handle_action c "always-download".toList us).1 = action_handler_status.AHS_OK ∧
        (∀ u, (ig.handle_action c "always-download".toList us).2.matches_lastmodified u = true
          ↔ ig.matches_lastmodified u = true ∨ u ∈ us) ∧
        (ig.handle_action c "always-download".toList us).2.resetflag = ig.resetflag ∧
        (ig.handle_action c "always-download".toList us).2.ignores = ig.ignores) ∧
      ((ig.handle_action c "reset-unread-on-update".toList us).1 =
          action_handler_status.AHS_OK ∧
        (∀ u, (ig.handle_action c "reset-unread-on-update".toList us).2.matches_resetunread u
          = true ↔ ig.matches_resetunread u = true ∨ u ∈ us) ∧
        (ig.handle_action c "reset-unread-on-update".toList us).2.ignores_lastmodified =
          ig.ignores_lastmodified ∧
        (ig.handle_action c "reset-unread-on-update".toList us).2.ignores = ig.ignores) := by
  have h1 : ig.handle_action c "always-download".toList us =
      (action_handler_status.AHS_OK,
        { ig with ignores_lastmodified := ig.ignores_lastmodified ++ us }) := by
    unfold rss_ignores.handle_action
    rw [if_neg (by decide), if_pos rfl, push_back_all_eq]
  have h2 : ig.handle_action c "reset-unread-on-update".toList us =
      (action_handler_status.AHS_OK, { ig with resetflag := ig.resetflag ++ us }) := by
    unfold rss_ignores.handle_action
    rw [if_neg (by decide), if_neg (by decide), if_pos rfl, push_back_all_eq]
  rw [h1, h2]
  refine ⟨⟨rfl, fun u => ?_, rfl, rfl⟩, ⟨rfl, fun u => ?_, rfl, rfl⟩⟩
  · exact any_eq_append_iff ig.ignores_lastmodified us u
  · exact any_eq_append_iff ig.resetflag us u

/-! ## Attribute introspection -/

/-- C15: for an attribute name outside the item's own ten names, `rss_item::has_attribute`
and `rss_item::get_attribute` return what `rss_feed::has_attribute` and
`rss_feed::get_attribute` of the owning feed (the feed behind `feedptr`) return for that
name, and false and the empty text when the item has no owning feed; for each of the ten
names `has_attribute` is true, and `get_attribute("unread")` is "yes" for an unread item and
"no" otherwise. -/
theorem item_attributes_fall_through (c : collab) (feeds : List rss_feed) (x : rss_item) :
    (∀ name : Str, name ∉ item_attribute_names →
        (∀ (f : Nat) (fd : rss_feed), x.feedptr = some f → feeds[f]? = some fd →
          x.has_attribute feeds name = rss_feed.has_attribute name ∧
          x.get_attribute c feeds name = fd.get_attribute c name) ∧
        (x.feedptr = none →
          x.has_attribute feeds name = false ∧ x.get_attribute c feeds name = [])) ∧
      (∀ name ∈ item_attribute_names, x.has_attribute feeds name = true) ∧
      x.get_attribute c feeds "unread".toList =
        (if x.unread_ then "yes".toList else "no".toList) := by
  refine ⟨?_, ?_, ?_⟩
  · intro name hn
    simp only [item_attribute_names, List.mem_cons, List.mem_singleton, not_or,
      List.not_mem_nil, not_false_eq_true, and_true] at hn
    obtain ⟨h1, h2, h3, h4, h5, h6, h7, h8, h9, h10⟩ := hn
    have hno : ¬ (name = "title".toList ∨ name = "link".toList ∨ name = "author".toList ∨
        name = "content".toList ∨ name = "date".toList ∨ name = "guid".toList ∨
        name = "unread".toList ∨ name = "enclosure_url".toList ∨
        name = "enclosure_type".toList ∨ name = "flags".toList) := by
      simp only [h1, h2, h3, h4, h5, h6, h7, h8, h9, h10, or_self, not_false_eq_true]
    constructor
    · intro f fd hf hfd
      unfold rss_item.has_attribute rss_item.get_attribute
      rw [if_neg hno, if_neg h1, if_neg h2, if_neg h3, if_neg h4, if_neg h5, if_neg h6,
        if_neg h7, if_neg h8, if_neg h9, if_neg h10]
      simp only [hf, Option.some_bind, hfd, and_self]
    · intro hf
      unfold rss_item.has_attribute rss_item.get_attribute
      rw [if_neg hno, if_neg h1, if_neg h2, if_neg h3, if_neg h4, if_neg h5, if_neg h6,
        if_neg h7, if_neg h8, if_neg h9, if_neg h10]
      simp only [hf, Option.none_bind, and_self]
  · intro name hn
    simp only [item_attribute_names, List.mem_cons, List.mem_singleton,
      List.not_mem_nil, or_false] at hn
    unfold rss_item.has_attribute
    rw [if_pos hn]
  · unfold rss_item.get_attribute
    rw [if_neg (by decide), if_neg (by decide), if_neg (by decide), if_neg (by decide),
      if_neg (by decide), if_neg (by decide), if_pos rfl]

/-- C15 at concrete inputs: the name `rssurl` on an item of the feed at index 0 and on an item
without owning feed. -/
theorem item_attributes_fall_through_witness :
    (rss_item.has_attribute titled_registry
          { sample_item "a" "1" true with feedptr := some 0 } "rssurl".toList =
          rss_feed.has_attribute "rssurl".toList ∧
        rss_item.get_attribute plain_collab titled_registry
          { sample_item "a" "1" true with feedptr := some 0 } "rssurl".toList =
          titled_feed.get_attribute plain_collab "rssurl".toList) ∧
      (rss_item.has_attribute titled_registry (sample_item "a" "1" true) "rssurl".toList = false ∧
        rss_item.get_attribute plain_collab titled_registry (sample_item "a" "1" true)
          "rssurl".toList = []) :=
  ⟨((item_attributes_fall_through plain_collab titled_registry
        { sample_item "a" "1" true with feedptr := some 0 }).1 "rssurl".toList
        (by decide)).1 0 titled_feed rfl rfl,
    ((item_attributes_fall_through plain_collab titled_registry
        (sample_item "a" "1" true)).1 "rssurl".toList (by decide)).2 rfl⟩

/-- C16 (the code at the failing input): for the feed titled "Title" with the link
"http://example.org/", `rss_feed::get_attribute("feedlink")` returns "Title", the result of
`title()`, and not the link. -/
theorem feed_get_attribute_feedlink_is_title :
    titled_feed.link = "http://example.org/".toList ∧
      titled_feed.get_attribute plain_collab "feedlink".toList = "Title".toList ∧
      titled_feed.get_attribute plain_collab "feedlink".toList ≠ titled_feed.link := by
  decide

/-! ## The construction of an item -/

/-- A text with a character that is not white space has a first token that is not empty. -/
theorem read_string_first_token (d : Str) (h : ∃ ch ∈ d, isspace ch = false) :
    (read_string { rest := d, good := true } []).1.isEmpty = false := by
  have hne : d.dropWhile isspace ≠ [] := by
    intro hc
    rw [List.dropWhile_eq_nil_iff] at hc
    obtain ⟨ch, hch, hs⟩ := h
    have := hc ch hch
    rw [hs] at this
    exact Bool.false_ne_true this
  have hhead := List.head_dropWhile_not isspace d hne
  unfold read_string
  simp only [Bool.not_true, Bool.false_eq_true, if_false]
  cases hr : d.dropWhile isspace with
  | nil => exact absurd hr hne
  | cons a t =>
    simp only [hr, List.head_cons] at hhead
    simp [List.takeWhile_cons, hhead]

/-- The date parser is defined on every text that is not blank. -/
theorem parse_date_defined (c : collab) (d : Str) (h : ∃ ch ∈ d, isspace ch = false) :
    ∃ t, parse_date c d = some t := by
  unfold parse_date parse_date_tm
  simp only [read_string_first_token d h, Bool.false_eq_true, if_false, Option.map_some']
  exact ⟨_, rfl⟩

theorem item_title_link_guid (c : collab) (my_uri encoding : Str) (feed : rss_feed)
    (item : mrss_item_t) (x : rss_item) :
    (item_title_link c my_uri encoding feed item x).guid_ = x.guid_ := by
  unfold item_title_link
  repeat' first | split | simp only []

theorem item_author_guid (c : collab) (encoding : Str) (mrss : mrss_t) (item : mrss_item_t)
    (x : rss_item) : (item_author c encoding mrss item x).guid_ = x.guid_ := by
  unfold item_author
  repeat' first | split | simp only []

theorem item_description_guid (c : collab) (cfgcont : configcontainer) (encoding : Str)
    (mrss : mrss_t) (item : mrss_item_t) (x : rss_item) :
    (item_description c cfgcont encoding mrss item x).guid_ = x.guid_ := by
  unfold item_description
  repeat' first | split | simp only []

theorem item_enclosure_guid (item : mrss_item_t) (x : rss_item) :
    (item_enclosure item x).guid_ = x.guid_ := by
  unfold item_enclosure
  repeat' first | split | simp only []

/-- The guid that the loop body of `parse` leaves in the item it builds. -/
theorem make_item_guid_eq (c : collab) (cfgcont : configcontainer) (my_uri : Str)
    (mrss : mrss_t) (feed : rss_feed) (k : Nat) (item : mrss_item_t) (x : rss_item)
    (h : make_item c cfgcont my_uri mrss feed k item = some x) :
    x.guid_ = (item_guid item (rss_item.new true)).guid_ := by
  unfold make_item at h
  simp only [] at h
  split at h
  · cases h
  · injection h with h
    rw [← h, item_enclosure_guid]
    unfold item_guid
    repeat' first | split | simp only []
    rw [item_description_guid, item_author_guid, item_title_link_guid]

/-- The loop body of `parse` builds an item from every entry whose date text, if it has one,
is not blank. -/
theorem make_item_defined (c : collab) (cfgcont : configcontainer) (my_uri : Str)
    (mrss : mrss_t) (feed : rss_feed) (k : Nat) (item : mrss_item_t)
    (hdate : ∀ d, item.pubDate = some d → ∃ ch ∈ d, isspace ch = false) :
    ∃ x, make_item c cfgcont my_uri mrss feed k item = some x := by
  unfold make_item
  simp only []
  cases hp : item.pubDate with
  | none => exact ⟨_, rfl⟩
  | some d =>
    obtain ⟨t, ht⟩ := parse_date_defined c d (hdate d hp)
    simp only [ht]
    exact ⟨_, rfl⟩

/-- C13: for every entry of a document (whose date text, if present, is not blank), the item
that the loop body of `rss_parser::parse` builds has as guid the explicit guid of the entry
when it has one; without an explicit guid, the entry's link if a link is present, else the
entry's title if a title is present, else the empty text. -/
theorem parse_guid_resolution (c : collab) (cfgcont : configcontainer) (my_uri : Str)
    (mrss : mrss_t) (feed : rss_feed) (k : Nat) (item : mrss_item_t)
    (hdate : ∀ d, item.pubDate = some d → ∃ ch ∈ d, isspace ch = false) :
    ∃ x, make_item c cfgcont my_uri mrss feed k item = some x ∧
      (∀ g, item.guid = some g → x.guid_ = g) ∧
      (item.guid = none → ∀ l, item.link = some l → x.guid_ = l) ∧
      (item.guid = none → item.link = none → ∀ t, item.title = some t → x.guid_ = t) ∧
      (item.guid = none → item.link = none → item.title = none → x.guid_ = []) := by
  obtain ⟨x, hx⟩ := make_item_defined c cfgcont my_uri mrss feed k item hdate
  have hg := make_item_guid_eq c cfgcont my_uri mrss feed k item x hx
  refine ⟨x, hx, ?_, ?_, ?_, ?_⟩
  · intro g h; rw [hg]; unfold item_guid; simp [h]
  · intro h1 l h2; rw [hg]; unfold item_guid; simp [h1, h2]
  · intro h1 h2 t h3; rw [hg]; unfold item_guid; simp [h1, h2, h3]
  · intro h1 h2 h3; rw [hg]; unfold item_guid; simp [h1, h2, h3, rss_item.new]

/-- C13 at a concrete input: an entry without guid, with the link "http://example.org/1", the
title "T" and the date "Mon, 06 Jan 2020 15:04:05" gets the link as guid. -/
theorem parse_guid_resolution_witness :
    (∀ d : Str, dated_item.pubDate = some d → ∃ ch ∈ d, isspace ch = false) ∧
      ∃ x, make_item plain_collab { always_display_description := false }
          "http://example.org/feed".toList (rss_doc []) (rss_feed.new true) 1 dated_item
          = some x ∧ x.guid_ = "http://example.org/1".toList :=
  ⟨fun d h => ⟨'M', by injection h with h; rw [← h]; decide, by decide⟩,
    match parse_guid_resolution plain_collab { always_display_description := false }
      "http://example.org/feed".toList (rss_doc []) (rss_feed.new true) 1 dated_item
      (fun d h => ⟨'M', by injection h with h; rw [← h]; decide, by decide⟩) with
    | ⟨x, hx, _, hl, _, _⟩ => ⟨x, hx, hl rfl _ rfl⟩⟩

/-! ## The virtual query feed -/

theorem unread_item_count_clear (fd : rss_feed) :
    (clear_feedptrs fd).unread_item_count = fd.unread_item_count := by
  unfold rss_feed.unread_item_count clear_feedptrs
  simp only [List.foldl_map]
  rfl

/-- The attributes of a feed do not depend on the back-references of its items. -/
theorem feed_get_attribute_clear (c : collab) (fd : rss_feed) (name : Str) :
    (clear_feedptrs fd).get_attribute c name = fd.get_attribute c name := by
  unfold rss_feed.get_attribute
  rw [unread_item_count_clear]
  have hl : (clear_feedptrs fd).items_.length = fd.items_.length := by
    simp [clear_feedptrs]
  rw [hl]
  rfl

/-- The attributes of an item are the same in two registries that differ only in the
back-references of the items of their feeds. -/
theorem item_attributes_congr (c : collab) (fs gs : List rss_feed) (x : rss_item)
    (h : fs.map clear_feedptrs = gs.map clear_feedptrs) :
    x.has_attribute fs = x.has_attribute gs ∧ x.get_attribute c fs = x.get_attribute c gs := by
  have hidx : ∀ f : Nat, (fs[f]?).map clear_feedptrs = (gs[f]?).map clear_feedptrs := by
    intro f
    rw [← List.getElem?_map, ← List.getElem?_map, h]
  constructor
  · funext name
    unfold rss_item.has_attribute
    cases hf : x.feedptr with
    | none => rfl
    | some f =>
      have := hidx f
      simp only [Option.some_bind]
      cases h1 : fs[f]? <;> cases h2 : gs[f]? <;> simp [h1, h2] at this <;> rfl
  · funext name
    unfold rss_item.get_attribute
    cases hf : x.feedptr with
    | none => rfl
    | some f =>
      have := hidx f
      simp only [Option.some_bind]
      cases h1 : fs[f]? with
      | none =>
        cases h2 : gs[f]? with
        | none => rfl
        | some b => simp [h1, h2] at this
      | some a =>
        cases h2 : gs[f]? with
        | none => simp [h1, h2] at this
        | some b =>
          simp only [h1, h2, Option.map_some', Option.some.injEq] at this
          simp only []
          rw [← feed_get_attribute_clear c a, ← feed_get_attribute_clear c b, this]

theorem query_holds_congr (c : collab) (query : Str) (fs gs : List rss_feed) (x : rss_item)
    (h : fs.map clear_feedptrs = gs.map clear_feedptrs) :
    query_holds c query fs x = query_holds c query gs x := by
  unfold query_holds
  rw [(item_attributes_congr c fs gs x h).1, (item_attributes_congr c fs gs x h).2]

/-- The inner loop of `update_items`, run while the registry differs from `feeds` only in
back-references: every item on which the predicate holds gets the back-reference `f`, and a
copy of it is appended to the virtual feed. -/
theorem update_items_inner_eq (c : collab) (query : Str) (f : Nat)
    (registry : List rss_item → List rss_feed) (feeds : List rss_feed) (base : List rss_item)
    (hreg : ∀ its : List rss_item, its.map clear_feedptr = base.map clear_feedptr →
      (registry its).map clear_feedptrs = feeds.map clear_feedptrs) :
    ∀ (todo seen items_ : List rss_item),
      (seen ++ todo).map clear_feedptr = base.map clear_feedptr →
      update_items_inner c query f registry seen todo items_ =
        (seen ++ todo.map (fun jt =>
            if query_holds c query feeds jt then jt.set_feedptr (some f) else jt),
          items_ ++ (todo.filter (query_holds c query feeds)).map
            (fun x => { x with feedptr := some f })) := by
  intro todo
  induction todo with
  | nil => intro seen items_ _; simp [update_items_inner]
  | cons jt rest ih =>
    intro seen items_ hb
    have hq : c.matcher_matches query (jt.has_attribute (registry (seen ++ jt :: rest)))
        (jt.get_attribute c (registry (seen ++ jt :: rest))) = query_holds c query feeds jt :=
      query_holds_congr c query _ feeds jt (hreg _ hb)
    unfold update_items_inner
    rw [hq]
    by_cases hp : query_holds c query feeds jt = true
    · rw [if_pos hp]
      rw [ih (seen ++ [jt.set_feedptr (some f)]) _ (by
        rw [← hb]
        simp [rss_item.set_feedptr, clear_feedptr])]
      simp [hp, rss_item.set_feedptr]
    · rw [if_neg hp]
      rw [ih (seen ++ [jt]) _ (by rw [← hb]; simp)]
      simp [hp]

theorem clear_feedptr_map_ite (p : rss_item → Bool) (f : Nat) (l : List rss_item) :
    (l.map (fun jt => if p jt then jt.set_feedptr (some f) else jt)).map clear_feedptr =
      l.map clear_feedptr := by
  induction l with
  | nil => rfl
  | cons a t ih =>
    simp only [List.map_cons, ih]
    by_cases h : p a = true
    · simp [h, rss_item.set_feedptr, clear_feedptr]
    · simp [h]

/-- The outer loop of `update_items`, run on a registry that differs from `feeds` only in
back-references: the virtual feed receives the matching copies of the feeds still to come. -/
theorem update_items_outer_eq (c : collab) (query : Str) (feeds : List rss_feed) :
    ∀ (todo done : List rss_feed) (items_ : List rss_item),
      (done ++ todo).map clear_feedptrs = feeds.map clear_feedptrs →
      (update_items_outer c query done todo items_).2 =
        items_ ++ matching_copies (query_holds c query feeds) done.length todo := by
  intro todo
  induction todo with
  | nil => intro done items_ _; simp [update_items_outer, matching_copies]
  | cons it rest ih =>
    intro done items_ hb
    have e6 := substr_zero_eq_iff it.rssurl_ "query:".toList
    have l6 : "query:".toList.length = 6 := by decide
    rw [l6] at e6
    unfold update_items_outer matching_copies
    by_cases hq : substr it.rssurl 0 6 ≠ "query:".toList
    · rw [if_pos hq]
      have hnp : ¬ "query:".toList <+: it.rssurl_ := fun hc => hq (e6.mpr hc)
      rw [if_neg hnp]
      have hinner := update_items_inner_eq c query done.length
        (fun its => done ++ { it with items_ := its } :: rest) feeds it.items_
        (by
          intro its hits
          rw [← hb]
          simp only [List.map_append, List.map_cons, clear_feedptrs, hits])
        it.items_ [] items_ rfl
      simp only []
      rw [hinner]
      simp only [List.nil_append]
      rw [ih _ _ (by
        rw [← hb]
        simp only [List.map_append, List.map_cons, List.map_nil, clear_feedptrs,
          clear_feedptr_map_ite, List.append_assoc, List.singleton_append])]
      simp [List.append_assoc]
    · rw [if_neg hq]
      have hp : "query:".toList <+: it.rssurl_ := e6.mp (not_not.mp hq)
      rw [if_pos hp]
      rw [ih _ _ (by rw [← hb]; simp)]
      simp

/-- The entries of `matching_copies`: the copies, with their back-reference, of the matching
items of the feeds whose url does not start with `query:`. -/
theorem mem_matching_copies (holds : rss_item → Bool) (x : rss_item) :
    ∀ (feeds : List rss_feed) (n : Nat), x ∈ matching_copies holds n feeds ↔
      ∃ (f : Nat) (fd : rss_feed) (y : rss_item), feeds[f]? = some fd ∧
        ¬ "query:".toList <+: fd.rssurl_ ∧ y ∈ fd.items_ ∧ holds y = true ∧
        x = { y with feedptr := some (n + f) } := by
  intro feeds
  induction feeds with
  | nil => intro n; simp [matching_copies]
  | cons fd rest ih =>
    intro n
    unfold matching_copies
    rw [List.mem_append, ih]
    constructor
    · rintro (h | ⟨f, fd2, y, h1, h2, h3, h4, h5⟩)
      · by_cases hp : "query:".toList <+: fd.rssurl_
        · rw [if_pos hp] at h; cases h
        · rw [if_neg hp, List.mem_map] at h
          obtain ⟨y, hy, rfl⟩ := h
          rw [List.mem_filter] at hy
          exact ⟨0, fd, y, by simp, hp, hy.1, hy.2, rfl⟩
      · exact ⟨f + 1, fd2, y, by simpa using h1, h2, h3, h4, by rw [h5]; congr 2; omega⟩
    · rintro ⟨f, fd2, y, h1, h2, h3, h4, h5⟩
      cases f with
      | zero =>
        simp only [List.getElem?_cons_zero, Option.some.injEq] at h1
        subst h1
        left
        rw [if_neg h2, List.mem_map]
        exact ⟨y, List.mem_filter.mpr ⟨h3, h4⟩, by rw [h5]; rfl⟩
      | succ f =>
        right
        exact ⟨f, fd2, y, by simpa using h1, h2, h3, h4, by rw [h5]; congr 2; omega⟩

/-- C14: for every virtual feed with a non-empty saved predicate and every list of feeds,
after `rss_feed::update_items` the items of the virtual feed are, whatever it held before
and up to the order that the final sort gives them, exactly the copies of those items of
the feeds whose url does not start with `query:` on which the predicate evaluates true, each
copy with its back-reference set to the feed it was found in; so their number is the number
of matching items of those feeds. -/
theorem update_items_materialises (c : collab) (self : rss_feed) (feeds : List rss_feed)
    (hq : self.query ≠ []) :
    ((self.update_items c feeds).1.items_).Perm
        (matching_copies (query_holds c self.query feeds) 0 feeds) ∧
      (∀ x, x ∈ (self.update_items c feeds).1.items_ ↔
        ∃ (f : Nat) (fd : rss_feed) (y : rss_item), feeds[f]? = some fd ∧
          ¬ "query:".toList <+: fd.rssurl_ ∧ y ∈ fd.items_ ∧
          query_holds c self.query feeds y = true ∧ x = { y with feedptr := some f }) ∧
      (self.update_items c feeds).1.items_.length =
        (matching_copies (query_holds c self.query feeds) 0 feeds).length := by
  have hne : ¬ self.query.length = 0 := by
    intro h; exact hq (List.length_eq_zero.mp h)
  have hitems : (self.update_items c feeds).1.items_ =
      std_sort_items (matching_copies (query_holds c self.query feeds) 0 feeds) := by
    unfold rss_feed.update_items
    rw [if_neg hne]
    simp only []
    rw [update_items_outer_eq c self.query feeds feeds [] [] rfl]
    simp
  have hperm : ((self.update_items c feeds).1.items_).Perm
      (matching_copies (query_holds c self.query feeds) 0 feeds) := by
    rw [hitems]
    exact List.perm_insertionSort _ _
  refine ⟨hperm, ?_, hperm.length_eq⟩
  intro x
  rw [hperm.mem_iff, mem_matching_copies]
  simp only [Nat.zero_add]

/-- C14 at concrete inputs: the virtual feed `unread = "yes"` over a concrete feed with an
unread and a read item and over another virtual feed ends with the one copy of the unread
item, pointing back to the concrete feed. -/
theorem update_items_materialises_witness :
    unread_query_feed.query ≠ [] ∧
      (((unread_query_feed.update_items unread_collab
          [titled_feed, unread_query_feed]).1.items_).Perm
        (matching_copies (query_holds unread_collab unread_query_feed.query
          [titled_feed, unread_query_feed]) 0 [titled_feed, unread_query_feed])) ∧
      (unread_query_feed.update_items unread_collab [titled_feed, unread_query_feed]).1.items_
        = [{ sample_item "a" "1" true with feedptr := some 0 }] :=
  ⟨by decide,
    (update_items_materialises unread_collab unread_query_feed
      [titled_feed, unread_query_feed] (by decide)).1,
    by decide⟩

/-! ## The dispatch on the source -/

theorem substr_zero_take (s : Str) (n : Nat) : substr s 0 n = s.take n := by
  unfold substr
  rw [List.drop_zero]

/-- A text that starts with one of two texts that differ within their common length does not
start with the other. -/
theorem substr_ne_of_substr_eq (s p q : Str) (n m : Nat) (hp : substr s 0 n = p)
    (hd : p.take (min n m) ≠ q.take (min n m)) : substr s 0 m ≠ q := by
  intro hq
  rw [substr_zero_take] at hp hq
  apply hd
  rw [← hp, ← hq, List.take_take, List.take_take]
  congr 1
  omega

/-- C20: for every source that starts with none of `http:`, `https:`, `exec:`, `filter:` and
`query:`, `rss_parser::parse` throws the unsupported-url message, with no outside effect and
no call on the durable store. For every source that starts with `query:` (and has the name
and the expression that `set_rssurl` reads as second and third part), `parse` returns, with
no outside effect and no call on the store, a feed without items whose `empty` flag is
false. -/
theorem parse_scheme_dispatch (c : collab) (cfgcont : configcontainer)
    (ign : Option rss_ignores) (ch : cache) (my_uri : Str) :
    (¬ "http:".toList <+: my_uri → ¬ "https:".toList <+: my_uri →
        ¬ "exec:".toList <+: my_uri → ¬ "filter:".toList <+: my_uri →
        ¬ "query:".toList <+: my_uri →
        parse c cfgcont ign ch my_uri =
          some { ret := Except.error ("Error: unsupported URL: ".toList ++ c_str my_uri),
                 ch := ch, io := [] }) ∧
      ("query:".toList <+: my_uri → ∀ name expr : Str,
        (c.tokenize_quoted my_uri ":".toList)[1]? = some name →
        (c.tokenize_quoted my_uri ":".toList)[2]? = some expr →
        parse c cfgcont ign ch my_uri =
          some { ret := Except.ok { rss_feed.new true with
                   rssurl_ := my_uri, title_ := name, query := expr, items_ := [],
                   empty := false },
                 ch := ch, io := [] }) := by
  have e5 := substr_zero_eq_iff my_uri "http:".toList
  have e6 := substr_zero_eq_iff my_uri "https:".toList
  have x5 := substr_zero_eq_iff my_uri "exec:".toList
  have f7 := substr_zero_eq_iff my_uri "filter:".toList
  have q6 := substr_zero_eq_iff my_uri "query:".toList
  rw [show "http:".toList.length = 5 by decide] at e5
  rw [show "https:".toList.length = 6 by decide] at e6
  rw [show "exec:".toList.length = 5 by decide] at x5
  rw [show "filter:".toList.length = 7 by decide] at f7
  rw [show "query:".toList.length = 6 by decide] at q6
  constructor
  · intro h1 h2 h3 h4 h5
    have g1 : ¬ substr my_uri 0 5 = "http:".toList := fun hc => h1 (e5.mp hc)
    have g2 : ¬ substr my_uri 0 6 = "https:".toList := fun hc => h2 (e6.mp hc)
    have g3 : ¬ substr my_uri 0 5 = "exec:".toList := fun hc => h3 (x5.mp hc)
    have g4 : ¬ substr my_uri 0 7 = "filter:".toList := fun hc => h4 (f7.mp hc)
    have g5 : ¬ substr my_uri 0 6 = "query:".toList := fun hc => h5 (q6.mp hc)
    unfold parse rss_feed.set_rssurl dispatch
    simp only [g1, g2, g3, g4, g5, if_false, or_self]
  · intro hq name expr hn he
    have g5 : substr my_uri 0 6 = "query:".toList := q6.mpr hq
    have g1 : ¬ substr my_uri 0 5 = "http:".toList := fun hc =>
      substr_ne_of_substr_eq my_uri _ "query:".toList 5 6 hc (by decide) g5
    have g2 : ¬ substr my_uri 0 6 = "https:".toList := by rw [g5]; decide
    have g3 : ¬ substr my_uri 0 5 = "exec:".toList := fun hc =>
      substr_ne_of_substr_eq my_uri _ "query:".toList 5 6 hc (by decide) g5
    have g4 : ¬ substr my_uri 0 7 = "filter:".toList := fun hc =>
      substr_ne_of_substr_eq my_uri _ "query:".toList 7 6 hc (by decide) g5
    unfold parse rss_feed.set_rssurl dispatch
    simp only [g5, if_true, hn, he, g1, g2, g3, g4, if_false, or_self]
    rfl

/-- C20 at concrete inputs: an `ftp:` source and a `query:` source. -/
theorem parse_scheme_dispatch_witness :
    parse plain_collab { always_display_description := false } none (empty_cache false)
        "ftp://example.org/feed".toList =
        some { ret := Except.error ("Error: unsupported URL: ".toList ++
                 c_str "ftp://example.org/feed".toList),
               ch := empty_cache false, io := [] } ∧
      parse plain_collab { always_display_description := false } none (empty_cache false)
        "query:Unread:unread = \"yes\"".toList =
        some { ret := Except.ok { rss_feed.new true with
                 rssurl_ := "query:Unread:unread = \"yes\"".toList, title_ := "Unread".toList,
                 query := "unread = \"yes\"".toList, items_ := [], empty := false },
               ch := empty_cache false, io := [] } :=
  ⟨(parse_scheme_dispatch plain_collab { always_display_description := false } none
      (empty_cache false) "ftp://example.org/feed".toList).1
      (by decide) (by decide) (by decide) (by decide) (by decide),
    (parse_scheme_dispatch plain_collab { always_display_description := false } none
      (empty_cache false) "query:Unread:unread = \"yes\"".toList).2
      (by decide) "Unread".toList "unread = \"yes\"".toList (by decide) (by decide)⟩

/-! ## The items of a parsed feed -/

/-- The feed-level part of `parse` is defined when the date text of the document, if present,
is not blank; it keeps the source and the items of the feed. -/
theorem fill_feed_defined (c : collab) (my_uri : Str) (mrss : mrss_t) (feed : rss_feed)
    (hdate : ∀ d, mrss.pubDate = some d → ∃ ch ∈ d, isspace ch = false) :
    ∃ fd, fill_feed c my_uri mrss feed = some fd ∧ fd.rssurl_ = feed.rssurl_ ∧
      fd.items_ = feed.items_ := by
  unfold fill_feed
  simp only []
  have hdef : ∃ t, (match mrss.pubDate with
      | some d => parse_date c d
      | none => some (c.time 0)) = some t := by
    cases hp : mrss.pubDate with
    | none => exact ⟨_, rfl⟩
    | some d => exact parse_date_defined c d (hdate d hp)
  obtain ⟨t, ht⟩ := hdef
  rw [ht]
  simp only []
  repeat' first | split | simp only []
  all_goals exact ⟨_, rfl, rfl, rfl⟩

/-- The loop body of `parse` reads the link and the source of the feed only. -/
theorem make_item_congr (c : collab) (cfgcont : configcontainer) (my_uri : Str)
    (mrss : mrss_t) (feed feed2 : rss_feed) (k : Nat) (item : mrss_item_t)
    (hl : feed.link_ = feed2.link_) (hr : feed.rssurl_ = feed2.rssurl_) :
    make_item c cfgcont my_uri mrss feed k item =
      make_item c cfgcont my_uri mrss feed2 k item := by
  unfold make_item item_title_link rss_feed.link rss_feed.rssurl
  rw [hl, hr]

theorem keep_eq_not_ignored (c : collab) (ign : Option rss_ignores) (x : rss_item) :
    (match ign with
      | none => true
      | some ig => !ig.matches_item c [] x) = !ignored c ign x := by
  unfold ignored
  cases ign <;> rfl

/-- The item loop of `parse` appends to the feed the built items that are not ignored. -/
theorem parse_items_eq (c : collab) (cfgcont : configcontainer) (ign : Option rss_ignores)
    (my_uri : Str) (mrss : mrss_t) (fd0 : rss_feed) :
    ∀ (items : List mrss_item_t) (k : Nat) (feed : rss_feed),
      feed.link_ = fd0.link_ → feed.rssurl_ = fd0.rssurl_ →
      (∀ item ∈ items, ∀ d, item.pubDate = some d → ∃ ch ∈ d, isspace ch = false) →
      parse_items c cfgcont ign my_uri mrss k items feed =
          some { feed with items_ := (feed.items_ ++
            (built_items c cfgcont my_uri mrss fd0 k items).filter
              (fun x => !ignored c ign x)) } ∧
        (built_items c cfgcont my_uri mrss fd0 k items).length = items.length := by
  intro items
  induction items with
  | nil =>
    intro k feed _ _ _
    simp [parse_items, built_items]
  | cons item rest ih =>
    intro k feed hl hr hd
    obtain ⟨x, hx⟩ := make_item_defined c cfgcont my_uri mrss fd0 k item
      (hd item (List.mem_cons_self item rest))
    have hx2 : make_item c cfgcont my_uri mrss feed k item = some x := by
      rw [make_item_congr c cfgcont my_uri mrss feed fd0 k item hl hr, hx]
    have hrest : ∀ it ∈ rest, ∀ d, it.pubDate = some d → ∃ ch ∈ d, isspace ch = false :=
      fun it hit => hd it (List.mem_cons_of_mem item hit)
    have hb : built_items c cfgcont my_uri mrss fd0 k (item :: rest) =
        x :: built_items c cfgcont my_uri mrss fd0 (k + 1) rest := by
      unfold built_items
      simp [List.enumFrom, List.filterMap_cons, hx]
    unfold parse_items
    rw [hx2, hb]
    simp only []
    rw [keep_eq_not_ignored c ign x]
    by_cases hi : ignored c ign x = true
    · simp only [hi, Bool.not_true, Bool.false_eq_true, if_false]
      have := ih (k + 1) feed hl hr hrest
      refine ⟨?_, by simp [this.2]⟩
      rw [this.1]
      simp [List.filter_cons, hi]
    · simp only [Bool.not_eq_true] at hi
      simp only [hi, Bool.not_false, if_true]
      have := ih (k + 1) { feed with items_ := feed.items_ ++ [x] } hl hr hrest
      refine ⟨?_, by simp [this.2]⟩
      rw [this.1]
      simp [List.filter_cons, hi]

/-- A source for which parsing is not skipped does not start with `query:`. -/
theorem dispatch_not_query (c : collab) (my_uri : Str) (err : mrss_error_t)
    (doc : Option mrss_t) (io : List io_event)
    (hd : dispatch c my_uri = some (false, err, doc, io)) :
    substr my_uri 0 6 ≠ "query:".toList := by
  intro g5
  have g1 : ¬ substr my_uri 0 5 = "http:".toList := fun hc =>
    substr_ne_of_substr_eq my_uri _ "query:".toList 5 6 hc (by decide) g5
  have g2 : ¬ substr my_uri 0 6 = "https:".toList := by rw [g5]; decide
  have g3 : ¬ substr my_uri 0 5 = "exec:".toList := fun hc =>
    substr_ne_of_substr_eq my_uri _ "query:".toList 5 6 hc (by decide) g5
  have g4 : ¬ substr my_uri 0 7 = "filter:".toList := fun hc =>
    substr_ne_of_substr_eq my_uri _ "query:".toList 7 6 hc (by decide) g5
  unfold dispatch at hd
  simp only [g5, if_true, g1, g2, g3, g4, if_false, or_self] at hd
  injection hd with hd
  injection hd with hd _
  cases hd

/-- C19: whenever the fetch of a source hands back a document with a status outside the
error range (and no date text in the document is blank), `rss_parser::parse` returns a feed
whose items are the items built from the entries of the document, one per entry and in
document order, without those that the ignore set matches (all of them when no ignore set is
given); the one call that the durable store receives reports the source and the guids of
exactly these retained items. -/
theorem parse_keeps_unignored_items (c : collab) (cfgcont : configcontainer)
    (ign : Option rss_ignores) (ch : cache) (my_uri : Str) (err : mrss_error_t)
    (doc : mrss_t) (io : List io_event)
    (hd : dispatch c my_uri = some (false, err, some doc, io))
    (herr : ¬ (err > MRSS_OK ∧ err ≤ MRSS_ERR_DATA))
    (hfd : ∀ d, doc.pubDate = some d → ∃ ch ∈ d, isspace ch = false)
    (hid : ∀ item ∈ doc.item, ∀ d, item.pubDate = some d → ∃ ch ∈ d, isspace ch = false) :
    ∃ fd0 fd : rss_feed,
      fill_feed c my_uri doc { rss_feed.new true with rssurl_ := my_uri } = some fd0 ∧
      (built_items c cfgcont my_uri doc fd0 1 doc.item).length = doc.item.length ∧
      fd.items_ = (built_items c cfgcont my_uri doc fd0 1 doc.item).filter
        (fun x => !ignored c ign x) ∧
      fd.empty = false ∧
      parse c cfgcont ign ch my_uri =
        some { ret := Except.ok fd,
               ch := { ch with calls := ch.calls ++
                 [cache_call.remove_old_deleted_items my_uri (fd.items_.map (fun x => x.guid_))] },
               io := io } := by
  obtain ⟨fd0, hfill, hurl, hitems⟩ := fill_feed_defined c my_uri doc
    { rss_feed.new true with rssurl_ := my_uri } hfd
  have hloop := parse_items_eq c cfgcont ign my_uri doc fd0 doc.item 1 fd0 rfl rfl hid
  have hnq := dispatch_not_query c my_uri err (some doc) io hd
  have hempty : fd0.items_ = [] := by rw [hitems]; rfl
  refine ⟨fd0, { fd0 with
      items_ := (built_items c cfgcont my_uri doc fd0 1 doc.item).filter
        (fun x => !ignored c ign x), empty := false }, hfill, hloop.2, rfl, rfl, ?_⟩
  unfold parse rss_feed.set_rssurl
  rw [if_neg hnq]
  simp only [hd, Bool.not_false, if_true, if_neg herr, hfill, Option.some_bind, hloop.1,
    hempty, List.nil_append]
  simp only [rss_feed.remove_old_deleted_items, cache.remove_old_deleted_items, hurl,
    rss_item.guid]

/-- C19 at concrete inputs: with the rule `ignore-article "*" "title =~ \"foo\""` and a
document with an entry titled "foo bar" and an entry titled "baz", the returned feed holds
the item "baz" only, and its guid is the one reported to the store. -/
theorem parse_keeps_unignored_items_witness :
    dispatch (title_foo_collab foo_baz_doc) "http://example.org/feed".toList =
        some (false, MRSS_OK, some foo_baz_doc,
          [io_event.mrss_parse_url "http://example.org/feed".toList]) ∧
      (∃ fd : rss_feed,
        parse (title_foo_collab foo_baz_doc) { always_display_description := false }
          (some (one_rule_ignores "title =~ \"foo\"")) (empty_cache false)
          "http://example.org/feed".toList =
          some { ret := Except.ok fd,
                 ch := { empty_cache false with calls := (empty_cache false).calls ++
                   [cache_call.remove_old_deleted_items "http://example.org/feed".toList
                     (fd.items_.map (fun x => x.guid_))] },
                 io := [io_event.mrss_parse_url "http://example.org/feed".toList] }) ∧
      returned_titles_and_calls
        (parse (title_foo_collab foo_baz_doc) { always_display_description := false }
          (some (one_rule_ignores "title =~ \"foo\"")) (empty_cache false)
          "http://example.org/feed".toList) =
        some ([("baz".toList, "g2".toList)],
          [cache_call.remove_old_deleted_items "http://example.org/feed".toList
            ["g2".toList]]) :=
  ⟨by decide,
    match parse_keeps_unignored_items (title_foo_collab foo_baz_doc)
      { always_display_description := false }
      (some (one_rule_ignores "title =~ \"foo\"")) (empty_cache false)
      "http://example.org/feed".toList MRSS_OK foo_baz_doc
      [io_event.mrss_parse_url "http://example.org/feed".toList]
      (by decide) (by decide) (fun _ h => nomatch h)
      (by intro item hi d hd
          simp only [foo_baz_doc, rss_doc, List.mem_cons, List.mem_singleton,
            List.not_mem_nil, or_false] at hi
          rcases hi with rfl | rfl <;> exact nomatch hd) with
    | ⟨_, fd, _, _, _, _, h5⟩ => ⟨fd, h5⟩,
    by decide⟩

/-! ## Ascending sorts -/

theorem char_toNat_ne {a b : Char} (h : a ≠ b) : a.toNat ≠ b.toNat := by
  intro hc
  apply h
  apply Char.ext
  exact UInt32.ext hc

/-- The sign of `strcmp` flips with its arguments. -/
theorem strcmp_lt_iff_gt : ∀ s t : Str, strcmp s t < 0 ↔ 0 < strcmp t s := by
  intro s
  induction s with
  | nil => intro t; cases t <;> simp [strcmp]
  | cons a s ih =>
    intro t
    cases t with
    | nil => simp [strcmp]
    | cons b t =>
      unfold strcmp
      by_cases h : a = b
      · subst h; simp only [if_true]; exact ih t
      · have h2 : ¬ b = a := fun hc => h hc.symm
        rw [if_neg h, if_neg h2]
        omega

theorem strcmp_self : ∀ s : Str, strcmp s s = 0 := by
  intro s
  induction s with
  | nil => rfl
  | cons a s ih => unfold strcmp; rw [if_pos rfl]; exact ih

/-- The comparison by `strcmp` is transitive. -/
theorem strcmp_le_trans : ∀ s t u : Str, strcmp s t ≤ 0 → strcmp t u ≤ 0 → strcmp s u ≤ 0 := by
  intro s
  induction s with
  | nil => intro t u _ _; cases u <;> simp [strcmp]
  | cons a s ih =>
    intro t u h1 h2
    cases t with
    | nil => simp [strcmp] at h1
    | cons b t =>
      cases u with
      | nil => simp [strcmp] at h2
      | cons d u =>
        unfold strcmp at h1 h2 ⊢
        by_cases hab : a = b
        · subst hab
          rw [if_pos rfl] at h1
          by_cases had : a = d
          · subst had
            rw [if_pos rfl] at h2 ⊢
            exact ih t u h1 h2
          · rw [if_neg had] at h2 ⊢
            exact h2
        · rw [if_neg hab] at h1
          have n1 := char_toNat_ne hab
          by_cases hbd : b = d
          · subst hbd
            rw [if_neg hab]
            exact h1
          · rw [if_neg hbd] at h2
            have n2 := char_toNat_ne hbd
            have had : ¬ a = d := by
              intro hc; subst hc; omega
            rw [if_neg had]
            omega

/-- The order of `strcmp` is the lexicographic order of the character codes. -/
theorem strcmp_lt_iff_lex : ∀ s t : Str,
    strcmp s t < 0 ↔ List.Lex (fun x y : Char => x.toNat < y.toNat) s t := by
  intro s
  induction s with
  | nil =>
    intro t
    cases t with
    | nil => simp [strcmp]
    | cons b t => simp [strcmp, List.Lex.nil]
  | cons a s ih =>
    intro t
    cases t with
    | nil =>
      simp only [strcmp]
      constructor
      · intro h; omega
      · intro h; cases h
    | cons b t =>
      unfold strcmp
      by_cases h : a = b
      · subst h
        rw [if_pos rfl, ih t]
        constructor
        · intro hl; exact List.Lex.cons hl
        · intro hl
          cases hl with
          | cons hl => exact hl
          | rel hr => exact absurd hr (Nat.lt_irrefl _)
      · rw [if_neg h]
        have n1 := char_toNat_ne h
        constructor
        · intro hl; exact List.Lex.rel (by omega)
        · intro hl
          cases hl with
          | cons hl => exact absurd rfl h
          | rel hr => omega

/-- A stable sort with a comparison by `strcmp` on a key gives a permutation that is
ascending in the key and keeps every pair of items with ordered keys in its order. -/
theorem stable_sort_by_key (key : rss_item → Str) (items : List rss_item) :
    (stable_sort (fun a b => decide (strcmp (key a) (key b) < 0)) items).Perm items ∧
      (stable_sort (fun a b => decide (strcmp (key a) (key b) < 0)) items).Pairwise
        (fun a b => strcmp (key a) (key b) ≤ 0) ∧
      (∀ a b, List.Sublist [a, b] items → strcmp (key a) (key b) ≤ 0 →
        List.Sublist [a, b]
          (stable_sort (fun a b => decide (strcmp (key a) (key b) < 0)) items)) := by
  have hr : ∀ a b : rss_item, (decide (strcmp (key b) (key a) < 0) = false) ↔
      strcmp (key a) (key b) ≤ 0 := by
    intro a b
    rw [decide_eq_false_iff_not, strcmp_lt_iff_gt]
    omega
  haveI : IsTotal rss_item (fun a b => decide (strcmp (key b) (key a) < 0) = false) :=
    ⟨fun a b => by
      rw [hr, hr]
      have := strcmp_lt_iff_gt (key a) (key b)
      have := strcmp_lt_iff_gt (key b) (key a)
      omega⟩
  haveI : IsTrans rss_item (fun a b => decide (strcmp (key b) (key a) < 0) = false) :=
    ⟨fun a b d => by
      rw [hr, hr, hr]
      exact strcmp_le_trans _ _ _⟩
  refine ⟨List.perm_insertionSort _ _, ?_, ?_⟩
  · have := List.sorted_insertionSort
      (fun a b : rss_item => decide (strcmp (key b) (key a) < 0) = false) items
    exact List.Pairwise.imp (fun {a b} h => (hr a b).mp h) this
  · intro a b hab hle
    exact List.pair_sublist_insertionSort ((hr a b).mpr hle) hab

/-- What `rss_feed::sort` does for the five keys, with and without the suffix `-asc`: a stable
sort with the comparison by `strcmp` on the key, and no reversal. -/
theorem sort_ascending_eq (c : collab) (fd : rss_feed) (k method : Str)
    (hk : k ∈ ascending_sort_keys) (hm : method = k ∨ method = k ++ "-asc".toList) :
    fd.sort c method = { fd with items_ :=
      (stable_sort (fun a b => decide (strcmp (sort_key c k a) (sort_key c k b) < 0))
        fd.items_) } := by
  simp only [ascending_sort_keys, List.mem_cons, List.mem_singleton, List.not_mem_nil,
    or_false] at hk
  rcases hk with rfl | rfl | rfl | rfl | rfl <;> rcases hm with rfl | rfl
  all_goals
    unfold rss_feed.sort
    first
    | rw [show tokenize "title".toList "-".toList = ["title".toList] by decide]
    | rw [show tokenize ("title".toList ++ "-asc".toList) "-".toList =
        ["title".toList, "asc".toList] by decide]
    | rw [show tokenize "flags".toList "-".toList = ["flags".toList] by decide]
    | rw [show tokenize ("flags".toList ++ "-asc".toList) "-".toList =
        ["flags".toList, "asc".toList] by decide]
    | rw [show tokenize "author".toList "-".toList = ["author".toList] by decide]
    | rw [show tokenize ("author".toList ++ "-asc".toList) "-".toList =
        ["author".toList, "asc".toList] by decide]
    | rw [show tokenize "link".toList "-".toList = ["link".toList] by decide]
    | rw [show tokenize ("link".toList ++ "-asc".toList) "-".toList =
        ["link".toList, "asc".toList] by decide]
    | rw [show tokenize "guid".toList "-".toList = ["guid".toList] by decide]
    | rw [show tokenize ("guid".toList ++ "-asc".toList) "-".toList =
        ["guid".toList, "asc".toList] by decide]
    simp only []
    repeat' first
      | rw [if_neg (by decide)]
      | rw [if_pos (by decide)]
    rfl

/-- C18: for each of the keys `title`, `flags`, `author`, `link`, `guid`, both
`rss_feed::sort(k)` and `rss_feed::sort(k + "-asc")` turn the item sequence into a permutation
of the input in which no item has a key that is less, in the lexicographic order of the
character codes (of the lower-cased characters for `title`), than the key of an item before
it, and in which two items with equal keys stand in the order they had in the input; nothing
but the item sequence changes. -/
theorem sort_ascending_is_stable_sort (c : collab) (fd : rss_feed) (k method : Str)
    (hk : k ∈ ascending_sort_keys) (hm : method = k ∨ method = k ++ "-asc".toList) :
    (fd.sort c method).items_.Perm fd.items_ ∧
      (fd.sort c method).items_.Pairwise (fun a b =>
        ¬ List.Lex (fun x y : Char => x.toNat < y.toNat) (sort_key c k b) (sort_key c k a)) ∧
      (∀ a b, List.Sublist [a, b] fd.items_ → sort_key c k a = sort_key c k b →
        List.Sublist [a, b] (fd.sort c method).items_) ∧
      fd.sort c method = { fd with items_ := (fd.sort c method).items_ } := by
  rw [sort_ascending_eq c fd k method hk hm]
  obtain ⟨h1, h2, h3⟩ := stable_sort_by_key (sort_key c k) fd.items_
  refine ⟨h1, ?_, ?_, rfl⟩
  · refine List.Pairwise.imp ?_ h2
    intro a b hle hlex
    rw [← strcmp_lt_iff_lex, strcmp_lt_iff_gt] at hlex
    omega
  · intro a b hab heq
    apply h3 a b hab
    rw [heq, strcmp_self]

/-- C18 at a concrete input: the titles "b", "A", "a" sorted by `title-asc` come out as
"A", "a", "b", the two titles that are equal up to case in their input order. -/
theorem sort_ascending_is_stable_sort_witness :
    ("title".toList ∈ ascending_sort_keys ∧
        ("title-asc".toList = "title".toList ∨
          "title-asc".toList = "title".toList ++ "-asc".toList)) ∧
      (three_titles.sort plain_collab "title-asc".toList).items_.Perm three_titles.items_ ∧
      (three_titles.sort plain_collab "title-asc".toList).items_.map (fun x => x.guid_) =
        ["2".toList, "3".toList, "1".toList] :=
  ⟨by decide,
    (sort_ascending_is_stable_sort plain_collab three_titles "title".toList
      "title-asc".toList (by decide) (by decide)).1,
    by decide⟩

/-! ## The date parser -/

theorem not_isspace_of_isDigit (ch : Char) (h : ch.isDigit = true) : isspace ch = false := by
  cases hs : isspace ch with
  | false => rfl
  | true =>
    exfalso
    unfold isspace at hs
    simp only [Bool.or_eq_true, decide_eq_true_eq] at hs
    rcases hs with ((((rfl | rfl) | rfl) | rfl) | rfl) | rfl <;> revert h <;> decide

theorem is_numeral_iff (s : Str) : is_numeral s = true ↔
    s ≠ [] ∧ (∀ ch ∈ s, ch.isDigit = true) ∧ (digits_value s : Int) ≤ INT_MAX := by
  unfold is_numeral
  simp [List.isEmpty_iff, and_assoc]

theorem is_token_iff (s : Str) : is_token s = true ↔
    s ≠ [] ∧ ∀ ch ∈ s, isspace ch = false := by
  unfold is_token
  simp [List.isEmpty_iff]

theorem is_token_of_is_numeral (s : Str) (h : is_numeral s = true) : is_token s = true := by
  rw [is_numeral_iff] at h
  rw [is_token_iff]
  exact ⟨h.1, fun ch hch => not_isspace_of_isDigit ch (h.2.1 ch hch)⟩

/-- White space in front of the text does not change what `>>` reads into a string. -/
theorem read_string_blank (r old : Str) :
    read_string { rest := ' ' :: r, good := true } old =
      read_string { rest := r, good := true } old := by
  unfold read_string
  simp [List.dropWhile_cons, isspace]

/-- Reading a token that is followed by a blank: the token is read, the stream stays good. -/
theorem read_string_token (tok rest old : Str) (h : is_token tok = true) :
    read_string { rest := tok ++ ' ' :: rest, good := true } old =
      (tok, { rest := ' ' :: rest, good := true }) := by
  rw [is_token_iff] at h
  obtain ⟨hne, hns⟩ := h
  obtain ⟨a, t, rfl⟩ := List.exists_cons_of_ne_nil hne
  have ha : isspace a = false := hns a (List.mem_cons_self a t)
  have hd : List.dropWhile isspace (a :: t ++ ' ' :: rest) = a :: t ++ ' ' :: rest := by
    simp [List.dropWhile_cons, ha]
  have hall : ∀ x ∈ a :: t, (fun ch => !isspace ch) x = true := by
    intro x hx; simp [hns x hx]
  have htake : List.takeWhile (fun ch => !isspace ch) (a :: t ++ ' ' :: rest) = a :: t := by
    rw [List.takeWhile_append_of_pos hall]
    simp [List.takeWhile_cons, isspace]
  have hdrop : List.dropWhile (fun ch => !isspace ch) (a :: t ++ ' ' :: rest) = ' ' :: rest := by
    rw [List.dropWhile_append_of_pos hall]
    simp [List.dropWhile_cons, isspace]
  unfold read_string
  simp only [Bool.not_true, Bool.false_eq_true, if_false, hd, htake, hdrop]
  simp

/-- Reading a token at the end of the text: the token is read, the stream is at its end. -/
theorem read_string_last_token (tok old : Str) (h : is_token tok = true) :
    read_string { rest := tok, good := true } old = (tok, { rest := [], good := false }) := by
  rw [is_token_iff] at h
  obtain ⟨hne, hns⟩ := h
  obtain ⟨a, t, rfl⟩ := List.exists_cons_of_ne_nil hne
  have ha : isspace a = false := hns a (List.mem_cons_self a t)
  have hd : List.dropWhile isspace (a :: t) = a :: t := by
    simp [List.dropWhile_cons, ha]
  have hall : ∀ x ∈ a :: t, (fun ch => !isspace ch) x = true := by
    intro x hx; simp [hns x hx]
  have htake : List.takeWhile (fun ch => !isspace ch) (a :: t) = a :: t :=
    List.takeWhile_eq_self_iff.mpr hall
  have hdrop : List.dropWhile (fun ch => !isspace ch) (a :: t) = [] :=
    List.dropWhile_eq_nil_iff.mpr hall
  unfold read_string
  simp only [Bool.not_true, Bool.false_eq_true, if_false, hd, htake, hdrop]
  simp

/-- White space in front of the text does not change what `>>` reads into an `int`. -/
theorem read_int_blank (r : Str) (old : Int) :
    read_int { rest := ' ' :: r, good := true } old =
      read_int { rest := r, good := true } old := by
  unfold read_int
  simp [List.dropWhile_cons, isspace]

theorem takeWhile_isDigit_stop (next : Str)
    (hnext : ∀ ch, next.head? = some ch → ch.isDigit = false) :
    List.takeWhile Char.isDigit next = [] ∧ List.dropWhile Char.isDigit next = next := by
  cases next with
  | nil => exact ⟨rfl, rfl⟩
  | cons ch n =>
    have := hnext ch rfl
    simp [List.takeWhile_cons, List.dropWhile_cons, this]

/-- Reading a numeral that is followed by the end of the text or by a character that is not
a digit: its value is read, and the stream stays good unless the text ended. -/
theorem read_int_numeral (ds next : Str) (old : Int) (h : is_numeral ds = true)
    (hnext : ∀ ch, next.head? = some ch → ch.isDigit = false) :
    read_int { rest := ds ++ next, good := true } old =
      ((digits_value ds : Int), { rest := next, good := !next.isEmpty }) := by
  rw [is_numeral_iff] at h
  obtain ⟨hne, hdig, hmax⟩ := h
  obtain ⟨a, t, rfl⟩ := List.exists_cons_of_ne_nil hne
  have ha : a.isDigit = true := hdig a (List.mem_cons_self a t)
  have hsp : isspace a = false := not_isspace_of_isDigit a ha
  have hminus : a ≠ '-' := by intro hc; subst hc; revert ha; decide
  have hplus : a ≠ '+' := by intro hc; subst hc; revert ha; decide
  have hd : List.dropWhile isspace (a :: t ++ next) = a :: t ++ next := by
    simp [List.dropWhile_cons, hsp]
  have hall : ∀ x ∈ a :: t, Char.isDigit x = true := hdig
  have htake : List.takeWhile Char.isDigit (a :: t ++ next) = a :: t := by
    rw [List.takeWhile_append_of_pos hall, (takeWhile_isDigit_stop next hnext).1]
    simp
  have hdrop : List.dropWhile Char.isDigit (a :: t ++ next) = next := by
    rw [List.dropWhile_append_of_pos hall, (takeWhile_isDigit_stop next hnext).2]
  have hmin : ¬ (digits_value (a :: t) : Int) < INT_MIN := by
    unfold INT_MIN; omega
  have hmax2 : ¬ (digits_value (a :: t) : Int) > INT_MAX := by omega
  unfold read_int
  simp only [Bool.not_true, Bool.false_eq_true, if_false, hd]
  have hhead : (a :: t ++ next).head? = some a := rfl
  simp only [hhead, Option.some.injEq, hminus, hplus, or_self, if_false, htake, hdrop,
    decide_False, List.isEmpty_cons, hmin, hmax2]
  have hemp : (a :: t ++ next).isEmpty = false := rfl
  simp only [hemp, Bool.false_eq_true, if_false, hmin, hmax2]

theorem read_int_numeral_end (ds : Str) (old : Int) (h : is_numeral ds = true) :
    (read_int { rest := ds, good := true } old).1 = (digits_value ds : Int) := by
  have := read_int_numeral ds [] old h (fun ch hc => nomatch hc)
  rw [List.append_nil] at this
  rw [this]

/-- The colon-separated parts of a time text made of numerals are these numerals. -/
theorem tokenize_time (time : List Str) (hne : time ≠ [])
    (hnum : ∀ t ∈ time, is_numeral t = true) :
    tokenize ([':'].intercalate time) ":".toList = time := by
  have hp : (fun ch : Char => decide (ch ∈ ":".toList)) = (fun ch => ch == ':') := by
    funext ch
    simp
    rfl
  have hcolon : ∀ l ∈ time, ':' ∉ l := by
    intro l hl hc
    have := ((is_numeral_iff l).mp (hnum l hl)).2.1 ':' hc
    revert this; decide
  unfold tokenize
  rw [hp]
  have := List.splitOn_intercalate time ':' hcolon hne
  unfold List.splitOn at this
  rw [this, List.filter_eq_self]
  intro t ht
  have := ((is_numeral_iff t).mp (hnum t ht)).1
  cases t with
  | nil => exact absurd rfl this
  | cons a t => rfl

theorem mem_intercalate_colon (ch : Char) : ∀ time : List Str,
    ch ∈ [':'].intercalate time → ch = ':' ∨ ∃ t ∈ time, ch ∈ t := by
  intro time
  induction time with
  | nil => intro h; simp [List.intercalate] at h
  | cons a rest ih =>
    intro h
    cases rest with
    | nil =>
      simp [List.intercalate] at h
      exact Or.inr ⟨a, List.mem_cons_self a [], h⟩
    | cons b rest =>
      have e : [':'].intercalate (a :: b :: rest) = a ++ ':' :: [':'].intercalate (b :: rest) := by
        simp [List.intercalate, List.intersperse]
      rw [e, List.mem_append, List.mem_cons] at h
      rcases h with h | h | h
      · exact Or.inr ⟨a, List.mem_cons_self a _, h⟩
      · exact Or.inl h
      · rcases ih h with h | ⟨t, ht, hc⟩
        · exact Or.inl h
        · exact Or.inr ⟨t, List.mem_cons_of_mem a ht, hc⟩

/-- A time text made of numerals is one token. -/
theorem is_token_time (time : List Str) (hne : time ≠ [])
    (hnum : ∀ t ∈ time, is_numeral t = true) : is_token ([':'].intercalate time) = true := by
  rw [is_token_iff]
  constructor
  · obtain ⟨a, rest, rfl⟩ := List.exists_cons_of_ne_nil hne
    have ha := ((is_numeral_iff a).mp (hnum a (List.mem_cons_self a rest))).1
    obtain ⟨x, y, rfl⟩ := List.exists_cons_of_ne_nil ha
    cases rest <;> simp [List.intercalate, List.intersperse]
  · intro ch hch
    rcases mem_intercalate_colon ch time hch with rfl | ⟨t, ht, hc⟩
    · decide
    · exact not_isspace_of_isDigit ch (((is_numeral_iff t).mp (hnum t ht)).2.1 ch hc)

/-- The month number is the position of the month text among `Jan` ... `Dec`, 0 for every
other text, and at most 11. -/
theorem monthname_to_number_eq (monthstr : Str) :
    (∀ i : Nat, monthtable[i]? = some monthstr → monthname_to_number monthstr = i) ∧
      (monthstr ∉ monthtable → monthname_to_number monthstr = 0) ∧
      monthname_to_number monthstr ≤ 11 := by
  have h1 : ∀ i : Nat, monthtable[i]? = some monthstr → monthname_to_number monthstr = i := by
    intro i h
    have hi : i < 12 := by
      by_contra hc
      have hl : monthtable.length ≤ i := by
        have : monthtable.length = 12 := by decide
        omega
      rw [List.getElem?_eq_none hl] at h
      cases h
    interval_cases i <;> simp [monthtable] at h <;> subst h <;> decide
  have h2 : monthstr ∉ monthtable → monthname_to_number monthstr = 0 := by
    intro h
    simp only [monthtable, List.mem_cons, List.mem_singleton, List.not_mem_nil, or_false,
      not_or] at h
    obtain ⟨a1, a2, a3, a4, a5, a6, a7, a8, a9, a10, a11, a12⟩ := h
    simp only [monthname_to_number, monthtable, monthname_loop, a1, a2, a3, a4, a5, a6, a7,
      a8, a9, a10, a11, a12, if_false]
  refine ⟨h1, h2, ?_⟩
  by_cases hm : monthstr ∈ monthtable
  · obtain ⟨i, hi⟩ := List.getElem?_of_mem hm
    have hlt : i < 12 := by
      by_contra hc
      have hl : monthtable.length ≤ i := by
        have : monthtable.length = 12 := by decide
        omega
      rw [List.getElem?_eq_none hl] at hi
      cases hi
    rw [h1 i hi]
    omega
  · rw [h2 hm]
    omega

theorem date_text_eq (weekday : Option Str) (day month year : Str) (time : List Str) :
    date_text weekday day month year time =
      (weekday.elim [] (fun w => w ++ [','] ++ [' '])) ++
        (day ++ ' ' :: (month ++ ' ' :: (year ++ ' ' :: [':'].intercalate time))) := by
  unfold date_text
  cases weekday <;> simp [List.append_assoc]

/-- The first reads of `parse_date` on a date text of the shape: after the optional weekday
is passed, `tmp` is the day and the stream stands before the month. -/
theorem parse_date_first_reads (pre day rest : Str)
    (hpre : pre = [] ∨ ∃ w : Str, (∀ ch ∈ w, isspace ch = false) ∧ pre = w ++ [','] ++ [' '])
    (hday : is_numeral day = true) :
    (read_string { rest := pre ++ (day ++ ' ' :: rest), good := true } []).1.isEmpty = false ∧
      (if (read_string { rest := pre ++ (day ++ ' ' :: rest), good := true } []).1.getLast?
            = some ','
        then read_string
          (read_string { rest := pre ++ (day ++ ' ' :: rest), good := true } []).2
          (read_string { rest := pre ++ (day ++ ' ' :: rest), good := true } []).1
        else read_string { rest := pre ++ (day ++ ' ' :: rest), good := true } []) =
        (day, { rest := ' ' :: rest, good := true }) := by
  have hdt := is_token_of_is_numeral day hday
  have hdn := (is_numeral_iff day).mp hday
  rcases hpre with rfl | ⟨w, hw, rfl⟩
  · rw [List.nil_append, read_string_token day rest [] hdt]
    simp only []
    have hlast : day.getLast? ≠ some ',' := by
      intro hc
      have hmem := List.mem_of_getLast?_eq_some hc
      have := hdn.2.1 ',' hmem
      revert this; decide
    refine ⟨?_, by rw [if_neg hlast]⟩
    cases day with
    | nil => exact absurd rfl hdn.1
    | cons a t => rfl
  · have hwt : is_token (w ++ [',']) = true := by
      rw [is_token_iff]
      refine ⟨by simp, ?_⟩
      intro ch hch
      rcases List.mem_append.mp hch with h | h
      · exact hw ch h
      · rw [List.mem_singleton] at h; subst h; decide
    have e : w ++ [','] ++ [' '] ++ (day ++ ' ' :: rest) =
        (w ++ [',']) ++ ' ' :: (day ++ ' ' :: rest) := by simp [List.append_assoc]
    rw [e, read_string_token (w ++ [',']) (day ++ ' ' :: rest) [] hwt]
    simp only []
    have hlast : (w ++ [',']).getLast? = some ',' := by simp
    refine ⟨by cases w <;> rfl, ?_⟩
    rw [if_pos hlast, read_string_blank, read_string_token day rest _ hdt]

/-- C17: for every date text of the shape `[Www, ]D Mon Y T` (an optional weekday token
followed by a comma, numerals `D` and `Y`, a month token, and a time of numerals joined by
colons), the broken-down time that `rss_parser::parse_date` hands to `mktime` has the day
`D`, the month number of `Mon`, the year `Y + 2000` when `Y < 100` and `Y` otherwise (stored
as years since 1900), and the first three parts of `T` as hour, minute and second, 0 for
each missing part; the month number is the position of `Mon` among `Jan` ... `Dec`, 0 for
every other text, and so at most 11. -/
theorem parse_date_fields (c : collab) (weekday : Option Str) (day month year : Str)
    (time : List Str)
    (hw : ∀ w, weekday = some w → ∀ ch ∈ w, isspace ch = false)
    (hday : is_numeral day = true) (hmon : is_token month = true)
    (hyear : is_numeral year = true) (hne : time ≠ [])
    (htime : ∀ t ∈ time, is_numeral t = true) :
    parse_date_tm c (date_text weekday day month year time) =
        some { tm_sec := ((time[2]?).map (fun t => (digits_value t : Int))).getD 0,
               tm_min := ((time[1]?).map (fun t => (digits_value t : Int))).getD 0,
               tm_hour := ((time[0]?).map (fun t => (digits_value t : Int))).getD 0,
               tm_mday := (digits_value day : Int),
               tm_mon := (monthname_to_number month : Int),
               tm_year := (if (digits_value year : Int) < 100 then
                   (digits_value year : Int) + 2000
                 else (digits_value year : Int)) - 1900 } ∧
      (∀ i : Nat, monthtable[i]? = some month → monthname_to_number month = i) ∧
      (month ∉ monthtable → monthname_to_number month = 0) ∧
      monthname_to_number month ≤ 11 := by
  refine ⟨?_, monthname_to_number_eq month⟩
  obtain ⟨h1, h2⟩ := parse_date_first_reads
    (weekday.elim [] (fun w => w ++ [','] ++ [' '])) day
    (month ++ ' ' :: (year ++ ' ' :: [':'].intercalate time))
    (by
      cases weekday with
      | none => exact Or.inl rfl
      | some w => exact Or.inr ⟨w, hw w rfl, rfl⟩) hday
  have h3 : read_string
      { rest := ' ' :: (month ++ ' ' :: (year ++ ' ' :: [':'].intercalate time)),
        good := true } [] =
      (month, { rest := ' ' :: (year ++ ' ' :: [':'].intercalate time), good := true }) := by
    rw [read_string_blank, read_string_token month _ [] hmon]
  have h4 : read_int { rest := ' ' :: (year ++ ' ' :: [':'].intercalate time), good := true }
      c.year_garbage =
      ((digits_value year : Int), { rest := ' ' :: [':'].intercalate time, good := true }) := by
    rw [read_int_blank, read_int_numeral year _ _ hyear (by
      intro ch hc
      simp only [List.head?_cons, Option.some.injEq] at hc
      subst hc
      decide)]
    rfl
  have h5 : read_string { rest := ' ' :: [':'].intercalate time, good := true } [] =
      ([':'].intercalate time, { rest := [], good := false }) := by
    rw [read_string_blank, read_string_last_token _ [] (is_token_time time hne htime)]
  have h6 := tokenize_time time hne htime
  have h7 := read_int_numeral_end day 0 hday
  rw [date_text_eq]
  unfold parse_date_tm
  simp only [h1, h2, h3, h4, h5, h6, h7, Bool.false_eq_true, if_false]
  congr 1
  obtain ⟨t0, rest, rfl⟩ := List.exists_cons_of_ne_nil hne
  have n0 := read_int_numeral_end t0 0 (htime t0 (List.mem_cons_self t0 rest))
  cases rest with
  | nil => simp [n0]
  | cons t1 rest =>
    have n1 := read_int_numeral_end t1 0 (htime t1 (by simp))
    cases rest with
    | nil => simp [n0, n1]
    | cons t2 rest =>
      have n2 := read_int_numeral_end t2 0 (htime t2 (by simp))
      simp [n0, n1, n2]

/-- C17 at the two date texts of the specification: "Mon, 06 Jan 2020 15:04:05" gives the
year 2020 (120 years since 1900), month 0, day 6 and 15:04:05, and "06 Jan 20 9:4" gives
the year 2020, hour 9, minute 4 and second 0. -/
theorem parse_date_fields_witness :
    (date_text (some "Mon".toList) "06".toList "Jan".toList "2020".toList
          ["15".toList, "04".toList, "05".toList] = "Mon, 06 Jan 2020 15:04:05".toList ∧
        date_text none "06".toList "Jan".toList "20".toList ["9".toList, "4".toList] =
          "06 Jan 20 9:4".toList) ∧
      parse_date_tm plain_collab "Mon, 06 Jan 2020 15:04:05".toList =
        some { tm_sec := 5, tm_min := 4, tm_hour := 15, tm_mday := 6, tm_mon := 0,
               tm_year := 2020 - 1900 } ∧
      parse_date_tm plain_collab "06 Jan 20 9:4".toList =
        some { tm_sec := 0, tm_min := 4, tm_hour := 9, tm_mday := 6, tm_mon := 0,
               tm_year := 2020 - 1900 } :=
  ⟨by decide,
    (parse_date_fields plain_collab (some "Mon".toList) "06".toList "Jan".toList
      "2020".toList ["15".toList, "04".toList, "05".toList]
      (fun w hw ch hch => by
        injection hw with hw
        subst hw
        revert ch
        decide)
      (by decide) (by decide) (by decide) (by decide) (by decide)).1,
    (parse_date_fields plain_collab none "06".toList "Jan".toList "20".toList
      ["9".toList, "4".toList] (fun _ hw => nomatch hw)
      (by decide) (by decide) (by decide) (by decide) (by decide)).1⟩

/-! ## The date sort -/

/-- C23 (an input on which the claim fails): the feed `oldest_first` holds its items in the
order "1", "2", "3"; after `rss_feed::sort("date")`, and after `rss_feed::sort("date-desc")`,
the order is still "1", "2", "3", and so not the reverse of the order held before the call. -/
theorem sort_date_is_not_reversed :
    (oldest_first.sort plain_collab "date".toList).items_.map (fun x => x.guid_) =
        ["1".toList, "2".toList, "3".toList] ∧
      (oldest_first.sort plain_collab "date-desc".toList).items_.map (fun x => x.guid_) =
        ["1".toList, "2".toList, "3".toList] ∧
      (oldest_first.sort plain_collab "date".toList).items_ ≠ oldest_first.items_.reverse ∧
      (oldest_first.sort plain_collab "date-desc".toList).items_ ≠
        oldest_first.items_.reverse := by
  decide

/-- C23 (amended): `rss_feed::sort` with the key `date` in its default descending direction
(`date` or `date-desc`) leaves the feed as it is, the items in the order they held before the
call, whatever their timestamps are; it is `date-asc` that yields the reverse of that
order, and nothing but the item sequence changes then. -/
theorem sort_date_default_keeps_order (c : collab) (fd : rss_feed) :
    fd.sort c "date".toList = fd ∧ fd.sort c "date-desc".toList = fd ∧
      fd.sort c "date-asc".toList = { fd with items_ := fd.items_.reverse } := by
  refine ⟨?_, ?_, ?_⟩
  all_goals
    unfold rss_feed.sort
    first
    | rw [show tokenize "date".toList "-".toList = ["date".toList] by decide]
    | rw [show tokenize "date-desc".toList "-".toList = ["date".toList, "desc".toList]
        by decide]
    | rw [show tokenize "date-asc".toList "-".toList = ["date".toList, "asc".toList]
        by decide]
    simp only []
    repeat' first
      | rw [if_neg (by decide)]
      | rw [if_pos (by decide)]

/-! ## Flags that are lost -/

/-- C24 (the code at the failing input): on the flags text "abbc" the function
`rss_item::sort_flags` returns with the flags "ab"; the flag `c`, an alphabetic character of
the input, is lost with the second `b`. -/
theorem sort_flags_loses_a_flag :
    (rss_item.sort_flags { rss_item.new true with flags_ := "abbc".toList }).map
        (fun y => y.flags) = some "ab".toList ∧
      ('c' ∈ "abbc".toList ∧ isalpha 'c' = true) ∧ 'c' ∉ "ab".toList := by
  decide

/-! ## The purge of deleted items -/

/-- An erased item that was deleted: the items that are not deleted are the same, and one
deleted item less is left. -/
theorem erase_item_deleted (items_ : List rss_item) (it : Nat) (hlt : it < items_.length)
    (hd : items_[it].deleted = true) :
    (erase_item items_ it).filter (fun x => !x.deleted) =
        items_.filter (fun x => !x.deleted) ∧
      ((erase_item items_ it).filter (fun x => x.deleted)).length + 1 =
        (items_.filter (fun x => x.deleted)).length ∧
      (erase_item items_ it).length + 1 = items_.length := by
  have hsplit : items_ = items_.take it ++ items_[it] :: items_.drop (it + 1) := by
    rw [← List.drop_eq_getElem_cons hlt, List.take_append_drop]
  have herase : erase_item items_ it = items_.take it ++ items_.drop (it + 1) := by
    unfold erase_item
    exact List.eraseIdx_eq_take_drop_succ items_ it
  have key : ∀ (pre post : List rss_item) (x : rss_item), x.deleted = true →
      (pre ++ post).filter (fun x => !x.deleted) =
          (pre ++ x :: post).filter (fun x => !x.deleted) ∧
        ((pre ++ post).filter (fun x => x.deleted)).length + 1 =
          ((pre ++ x :: post).filter (fun x => x.deleted)).length := by
    intro pre post x hx
    simp only [List.filter_append, List.filter_cons, hx, if_true, Bool.not_true,
      Bool.false_eq_true, if_false, List.length_append, List.length_cons]
    exact ⟨trivial, by omega⟩
  have hk := key (items_.take it) (items_.drop (it + 1)) items_[it] hd
  rw [← hsplit, ← herase] at hk
  refine ⟨hk.1, hk.2, ?_⟩
  unfold erase_item
  rw [List.length_eraseIdx_of_lt hlt]
  omega

/-- The loop of `purge_deleted_items` ends within `purge_steps` steps, from every position
before which no item is deleted, and leaves the items that are not deleted. -/
theorem purge_loop_eq (fuel : Nat) : ∀ (items_ : List rss_item) (it : Nat),
    it ≤ items_.length → (∀ x ∈ items_.take it, x.deleted = false) →
    purge_steps items_ it < fuel →
    purge_loop fuel items_ it = some (items_.filter (fun x => !x.deleted)) := by
  induction fuel with
  | zero => intro items_ it _ _ h; omega
  | succ fuel ih =>
    intro items_ it hle hinv hfuel
    unfold purge_loop
    by_cases hc : it ≠ items_.length
    · rw [if_pos hc]
      have hlt : it < items_.length := by omega
      rw [List.getElem?_eq_getElem hlt]
      simp only []
      by_cases hd : items_[it].deleted = true
      · rw [if_pos hd]
        obtain ⟨h1, h2, h3⟩ := erase_item_deleted items_ it hlt hd
        rw [← h1]
        apply ih (erase_item items_ it) 0 (Nat.zero_le _) (by simp)
        unfold purge_steps at hfuel ⊢
        obtain ⟨d, hd1⟩ :
            ∃ d, ((erase_item items_ it).filter (fun x => x.deleted)).length = d := ⟨_, rfl⟩
        obtain ⟨n, hn1⟩ : ∃ n, (erase_item items_ it).length = n := ⟨_, rfl⟩
        rw [hd1, hn1]
        rw [← h2, ← h3, hd1, hn1] at hfuel
        have hmul : (d + 1) * (n + 1 + 1) = d * (n + 1) + (d + n + 2) := by ring
        rw [hmul] at hfuel
        omega
      · rw [if_neg hd]
        apply ih items_ (it + 1) hlt
        · intro x hx
          rw [List.take_succ, List.getElem?_eq_getElem hlt] at hx
          simp only [Option.toList_some, List.mem_append, List.mem_singleton] at hx
          rcases hx with hx | rfl
          · exact hinv x hx
          · simpa using hd
        · unfold purge_steps at hfuel ⊢
          omega
    · rw [if_neg hc]
      have hit : it = items_.length := by omega
      rw [hit, List.take_length] at hinv
      congr 1
      symm
      rw [List.filter_eq_self]
      intro x hx
      simp [hinv x hx]

/-- The fuel that `purge_deleted_items` hands to its loop is enough. -/
theorem purge_steps_lt (items_ : List rss_item) :
    purge_steps items_ 0 < (items_.length + 1) * (items_.length + 1) := by
  unfold purge_steps
  have hle : (items_.filter (fun x => x.deleted)).length ≤ items_.length :=
    List.length_filter_le _ _
  have hmul : (items_.filter (fun x => x.deleted)).length * (items_.length + 1) ≤
      items_.length * (items_.length + 1) := Nat.mul_le_mul_right _ hle
  have hsq : (items_.length + 1) * (items_.length + 1) =
      items_.length * (items_.length + 1) + (items_.length + 1) := by ring
  rw [hsq]
  omega

/-- C25: for every feed, `rss_feed::purge_deleted_items` returns (its loop ends within
`(n + 1) * (n + 1)` steps for `n` items, and more steps change nothing), and the items it
leaves are the items that are not deleted, in the order they had: the item sequence filtered
by `not deleted`, the rest of the feed as it was. A second call changes nothing. -/
theorem purge_deleted_items_is_filter (fd : rss_feed) :
    (∀ fuel, (fd.items_.length + 1) * (fd.items_.length + 1) ≤ fuel →
        purge_loop fuel fd.items_ 0 = some (fd.items_.filter (fun x => !x.deleted))) ∧
      fd.purge_deleted_items =
        some { fd with items_ := fd.items_.filter (fun x => !x.deleted) } ∧
      (∀ fd1, fd.purge_deleted_items = some fd1 → fd1.purge_deleted_items = some fd1) := by
  have hloop : ∀ (items_ : List rss_item) (fuel : Nat),
      (items_.length + 1) * (items_.length + 1) ≤ fuel →
      purge_loop fuel items_ 0 = some (items_.filter (fun x => !x.deleted)) :=
    fun items_ fuel hf => purge_loop_eq fuel items_ 0 (Nat.zero_le _) (by simp)
      (Nat.lt_of_lt_of_le (purge_steps_lt items_) hf)
  have hcall : ∀ g : rss_feed, g.purge_deleted_items =
      some { g with items_ := g.items_.filter (fun x => !x.deleted) } := by
    intro g
    unfold rss_feed.purge_deleted_items
    rw [hloop g.items_ _ (Nat.le_refl _)]
    rfl
  refine ⟨hloop fd.items_, hcall fd, ?_⟩
  intro fd1 h1
  rw [hcall fd] at h1
  injection h1 with h1
  rw [hcall fd1, ← h1]
  simp only [List.filter_filter, Bool.and_self]

/-- C25 at a concrete input: of the four items "1", "2", "3", "4", of which all but "3" are
deleted, `purge_deleted_items` leaves the item "3", and a second call leaves it again. -/
theorem purge_deleted_items_is_filter_witness :
    partly_deleted.purge_deleted_items =
        some { partly_deleted with items_ := [stamped_item "3" 30 false] } ∧
      (partly_deleted.purge_deleted_items =
          some { partly_deleted with items_ := [stamped_item "3" 30 false] } →
        rss_feed.purge_deleted_items
            { partly_deleted with items_ := [stamped_item "3" 30 false] } =
          some { partly_deleted with items_ := [stamped_item "3" 30 false] }) :=
  ⟨(purge_deleted_items_is_filter partly_deleted).2.1,
    (purge_deleted_items_is_filter partly_deleted).2.2 _⟩

/-! ## The display title -/

/-- The test of the loop of `title()` on a tag: whether the tag starts with `~`. -/
theorem substr_tilde_iff (it : Str) : substr it 0 1 = "~".toList ↔ "~".toList <+: it :=
  substr_zero_eq_iff it "~".toList

/-- The text that the loop of `title()` takes from a tag: the tag without its first
character. -/
theorem substr_one_eq_drop (it : Str) : substr it 1 (it.length - 1) = it.drop 1 := by
  unfold substr
  rw [List.take_of_length_le]
  rw [List.length_drop]

/-- The loop of `title()` finds nothing among tags that do not start with `~`. -/
theorem title_loop_none (tags : List Str) (h : ∀ p ∈ tags, ¬ "~".toList <+: p) :
    title_loop tags = none := by
  induction tags with
  | nil => rfl
  | cons it rest ih =>
    unfold title_loop
    rw [if_neg (fun hc => h it (List.mem_cons_self it rest) ((substr_tilde_iff it).mp hc))]
    exact ih (fun p hp => h p (List.mem_cons_of_mem it hp))

/-- The loop of `title()` stops at the first tag that starts with `~`. -/
theorem title_loop_first (pre : List Str) (tag : Str) (rest : List Str)
    (hpre : ∀ p ∈ pre, ¬ "~".toList <+: p) (htag : "~".toList <+: tag) :
    title_loop (pre ++ tag :: rest) = some (tag.drop 1) := by
  induction pre with
  | nil =>
    rw [List.nil_append]
    unfold title_loop
    rw [if_pos ((substr_tilde_iff tag).mpr htag), substr_one_eq_drop]
  | cons it pre ih =>
    rw [List.cons_append]
    unfold title_loop
    rw [if_neg (fun hc => hpre it (List.mem_cons_self it pre) ((substr_tilde_iff it).mp hc))]
    exact ih (fun p hp => hpre p (List.mem_cons_of_mem it hp))

/-- The loop of `title()` sees only the tags that start with `~`. -/
theorem title_loop_filter (tags : List Str) :
    title_loop (tags.filter (fun p => decide ("~".toList <+: p))) = title_loop tags := by
  induction tags with
  | nil => rfl
  | cons it rest ih =>
    by_cases h : "~".toList <+: it
    · rw [List.filter_cons_of_pos (by simpa using h)]
      unfold title_loop
      rw [if_pos ((substr_tilde_iff it).mpr h), if_pos ((substr_tilde_iff it).mpr h)]
    · rw [List.filter_cons_of_neg (by simpa using h), ih]
      conv_rhs => unfold title_loop
      rw [if_neg (fun hc => h ((substr_tilde_iff it).mp hc))]

/-- The tags that `set_tags` stores are the tags it is given, in their order. -/
theorem set_tags_eq (fd : rss_feed) (tags : List Str) : (fd.set_tags tags).tags_ = tags := by
  have h : ∀ (ts acc : List Str), ts.foldl (fun acc it => acc ++ [it]) acc = acc ++ ts := by
    intro ts
    induction ts with
    | nil => intro acc; simp
    | cons it rest ih => intro acc; simp [ih]
  unfold rss_feed.set_tags
  simp [h]

/-- C22: for every feed, `rss_feed::title()` returns the text after the leading `~` of the
first tag, in the order of the tags, that starts with `~` when there is such a tag, and the
stored title (through the conversion to the encoding of the locale) when there is none; two
feeds with the same stored title whose tags starting with `~` are the same return the same
title, whatever their other tags are. The tags are those that `set_tags` was given, in their
order. -/
theorem title_is_first_tilde_tag (c : collab) (fd : rss_feed) :
    (∀ (pre : List Str) (tag : Str) (rest : List Str), fd.tags_ = pre ++ tag :: rest →
        (∀ p ∈ pre, ¬ "~".toList <+: p) → "~".toList <+: tag →
        fd.title c = tag.drop 1) ∧
      ((∀ p ∈ fd.tags_, ¬ "~".toList <+: p) →
        fd.title c = c.convert_text fd.title_ c.codeset "utf-8".toList) ∧
      (∀ fd2 : rss_feed, fd2.title_ = fd.title_ →
        fd2.tags_.filter (fun p => decide ("~".toList <+: p)) =
          fd.tags_.filter (fun p => decide ("~".toList <+: p)) →
        fd2.title c = fd.title c) ∧
      (∀ tags : List Str, (fd.set_tags tags).tags_ = tags ∧
        (fd.set_tags tags).title_ = fd.title_) := by
  refine ⟨?_, ?_, ?_, fun tags => ⟨set_tags_eq fd tags, rfl⟩⟩
  · intro pre tag rest htags hpre htag
    unfold rss_feed.title
    rw [htags, title_loop_first pre tag rest hpre htag]
  · intro h
    unfold rss_feed.title
    rw [title_loop_none fd.tags_ h]
  · intro fd2 ht hf
    unfold rss_feed.title
    rw [← title_loop_filter fd2.tags_, ← title_loop_filter fd.tags_, hf, ht]

/-- C22 at a concrete input: the feed titled "Stored" with the tags "news", "~Shown",
"~Other" has the title "Shown"; with the tag "news" alone it has the title "Stored". -/
theorem title_is_first_tilde_tag_witness :
    rss_feed.title plain_collab tagged_feed = "Shown".toList ∧
      rss_feed.title plain_collab (tagged_feed.set_tags ["news".toList]) =
        "Stored".toList :=
  ⟨(title_is_first_tilde_tag plain_collab tagged_feed).1 ["news".toList] "~Shown".toList
      ["~Other".toList] rfl (by decide) (by decide),
    (title_is_first_tilde_tag plain_collab (tagged_feed.set_tags ["news".toList])).2.1
      (by decide)⟩

/-! ## The author of an item -/

theorem item_title_link_author (c : collab) (my_uri encoding : Str) (feed : rss_feed)
    (item : mrss_item_t) (x : rss_item) :
    (item_title_link c my_uri encoding feed item x).author_ = x.author_ := by
  unfold item_title_link
  repeat' first | split | simp only []

theorem item_description_author (c : collab) (cfgcont : configcontainer) (encoding : Str)
    (mrss : mrss_t) (item : mrss_item_t) (x : rss_item) :
    (item_description c cfgcont encoding mrss item x).author_ = x.author_ := by
  unfold item_description
  repeat' first | split | simp only []

theorem item_guid_author (item : mrss_item_t) (x : rss_item) :
    (item_guid item x).author_ = x.author_ := by
  unfold item_guid
  repeat' first | split | simp only []

theorem item_enclosure_author (item : mrss_item_t) (x : rss_item) :
    (item_enclosure item x).author_ = x.author_ := by
  unfold item_enclosure
  repeat' first | split | simp only []

/-- The author that the author step leaves depends on the item it starts from only through
the author of that item. -/
theorem item_author_congr (c : collab) (encoding : Str) (mrss : mrss_t) (item : mrss_item_t)
    (x y : rss_item) (h : x.author_ = y.author_) :
    (item_author c encoding mrss item x).author_ =
      (item_author c encoding mrss item y).author_ := by
  unfold item_author
  repeat' first | split | simp only []
  all_goals exact h

/-- The author that the loop body of `parse` leaves in the item it builds. -/
theorem make_item_author_eq (c : collab) (cfgcont : configcontainer) (my_uri : Str)
    (mrss : mrss_t) (feed : rss_feed) (k : Nat) (item : mrss_item_t) (x : rss_item)
    (h : make_item c cfgcont my_uri mrss feed k item = some x) :
    x.author_ = (item_author c (mrss.encoding.getD "utf-8".toList) mrss item
      (rss_item.new true)).author_ := by
  unfold make_item at h
  simp only [] at h
  split at h
  · cases h
  · injection h with h
    rw [← h, item_enclosure_author, item_guid_author]
    simp only []
    rw [item_description_author]
    simp only []
    exact item_author_congr c _ mrss item _ _ (item_title_link_author c my_uri _ feed item _)

/-- C21: for every entry of a document (whose date text, if present, is not blank), the
author of the item that the loop body of `rss_parser::parse` builds is the author of the
entry when it is present and not empty; otherwise the managing editor of the document when
it has one; otherwise the value of the `creator` field of the Dublin Core namespace when the
entry has such a field with a value; otherwise the empty text. Each text is stored through
the conversion from the encoding of the document. -/
theorem parse_author_resolution (c : collab) (cfgcont : configcontainer) (my_uri : Str)
    (mrss : mrss_t) (feed : rss_feed) (k : Nat) (item : mrss_item_t)
    (hdate : ∀ d, item.pubDate = some d → ∃ ch ∈ d, isspace ch = false) :
    ∃ x, make_item c cfgcont my_uri mrss feed k item = some x ∧
      (∀ a, item.author = some a → a ≠ [] →
        x.author_ = c.convert_text a "utf-8".toList (mrss.encoding.getD "utf-8".toList)) ∧
      ((item.author = none ∨ item.author = some []) →
        (∀ ed, mrss.managingeditor = some ed →
          x.author_ =
            c.convert_text ed "utf-8".toList (mrss.encoding.getD "utf-8".toList)) ∧
        (mrss.managingeditor = none →
          (∀ creator v,
            (mrss_search_tag item "creator".toList
              "http://purl.org/dc/elements/1.1/".toList).2 = some creator →
            creator.value = some v →
            x.author_ =
              c.convert_text v "utf-8".toList (mrss.encoding.getD "utf-8".toList)) ∧
          ((∀ creator,
            (mrss_search_tag item "creator".toList
              "http://purl.org/dc/elements/1.1/".toList).2 = some creator →
            creator.value = none) → x.author_ = []))) := by
  obtain ⟨x, hx⟩ := make_item_defined c cfgcont my_uri mrss feed k item hdate
  have ha := make_item_author_eq c cfgcont my_uri mrss feed k item x hx
  refine ⟨x, hx, ?_, ?_⟩
  · intro a h1 h2
    rw [ha]
    unfold item_author
    simp [h1, h2]
  · intro h1
    refine ⟨?_, ?_⟩
    · intro ed h2
      rw [ha]
      unfold item_author
      simp [h1, h2]
    · intro h2
      have hs : (mrss_search_tag item "creator".toList
          "http://purl.org/dc/elements/1.1/".toList).1 = MRSS_OK := rfl
      refine ⟨?_, ?_⟩
      · intro creator v h3 h4
        rw [ha]
        unfold item_author
        simp only [h1, h2, if_true, hs, decide_True, h3, h4]
      · intro h3
        rw [ha]
        unfold item_author
        simp only [h1, h2, if_true, hs, decide_True]
        cases h4 : (mrss_search_tag item "creator".toList
            "http://purl.org/dc/elements/1.1/".toList).2 with
        | none => rfl
        | some creator =>
          simp only [h3 creator h4]
          rfl

/-- C21 at concrete inputs: in a document without managing editor, an entry without author
whose `creator` field is "Carol" gets the author "Carol"; in a document with the managing
editor "Ed", an entry with the empty author gets the author "Ed", whatever its `creator`
field is. -/
theorem parse_author_resolution_witness :
    (∀ d : Str, (authored_item none (some "Carol")).pubDate = some d →
        ∃ ch ∈ d, isspace ch = false) ∧
      (∃ x, make_item plain_collab { always_display_description := false }
          "http://example.org/feed".toList (edited_doc none) (rss_feed.new true) 1
          (authored_item none (some "Carol")) = some x ∧ x.author_ = "Carol".toList) ∧
      ∃ x, make_item plain_collab { always_display_description := false }
          "http://example.org/feed".toList (edited_doc (some "Ed")) (rss_feed.new true) 1
          (authored_item (some "") (some "Carol")) = some x ∧ x.author_ = "Ed".toList :=
  ⟨fun d h => ⟨'0', by injection h with h; rw [← h]; decide, by decide⟩,
    match parse_author_resolution plain_collab { always_display_description := false }
      "http://example.org/feed".toList (edited_doc none) (rss_feed.new true) 1
      (authored_item none (some "Carol"))
      (fun d h => ⟨'0', by injection h with h; rw [← h]; decide, by decide⟩) with
    | ⟨x, hx, _, h⟩ => ⟨x, hx, ((h (Or.inl rfl)).2 rfl).1 _ _ rfl rfl⟩,
    match parse_author_resolution plain_collab { always_display_description := false }
      "http://example.org/feed".toList (edited_doc (some "Ed")) (rss_feed.new true) 1
      (authored_item (some "") (some "Carol"))
      (fun d h => ⟨'0', by injection h with h; rw [← h]; decide, by decide⟩) with
    | ⟨x, hx, _, h⟩ => ⟨x, hx, (h (Or.inr rfl)).1 _ rfl⟩⟩

end Rss
